import Mathlib

/-!
# Crazyflie controller: flight-phase state machine and control tick

Shallow embedding of `crazyflie_controller/src/controller.cpp`.

Conventions of the embedding:
* `float`/`double` values and `ros::Time`/`ros::Duration` (seconds) are exact rationals in
  `iteration`, which is used where no outcome depends on rounding. Runs of the safety
  landing do depend on it; they are stated on `iterationF32`, where the `float` arithmetic
  of `case SafetyLanding` is rounded to binary32 (`f32`).
* The `Controller` object is an explicit record; each callback is a function from the
  record and the data the callback reads from its environment to an `Outcome`: the new
  record, the messages published on `cmd_vel` in order, and whether a `tf` exception left
  the callback.
* `pid.hpp` and the `tf` library are not part of the sources; the PID operations and the
  yaw extraction `getRPY` are parameters (`Library`) of every definition that calls them.
-/

namespace Crazyflie

/-- The `State` enum of `Controller`. -/
inductive State where
  | Idle
  | Automatic
  | TakingOff
  | Landing
  | SafetyLanding
  deriving DecidableEq, Repr

/-- A `geometry_msgs::Vector3` / `Point` / `tf::Vector3`. -/
structure Vector3 where
  x : ℚ
  y : ℚ
  z : ℚ
  deriving DecidableEq, Repr

/-- A `geometry_msgs::Quaternion`. -/
structure Quaternion where
  x : ℚ
  y : ℚ
  z : ℚ
  w : ℚ
  deriving DecidableEq, Repr

/-- A `geometry_msgs::Pose`, the payload of the goal message. -/
structure Pose where
  position : Vector3
  orientation : Quaternion
  deriving DecidableEq, Repr

/-- A `geometry_msgs::Twist`, the command published on `cmd_vel`. -/
structure Twist where
  linear : Vector3
  angular : Vector3
  deriving DecidableEq, Repr

/-- A default-constructed `geometry_msgs::Twist` (all six components zero). -/
def zeroTwist : Twist := ⟨⟨0, 0, 0⟩, ⟨0, 0, 0⟩⟩

/-- A default-constructed `Twist` whose `linear.z` has been assigned (`linear.x` and
`linear.y` are zero, assigned or not). -/
def thrustTwist (z : ℚ) : Twist := ⟨⟨0, 0, z⟩, ⟨0, 0, 0⟩⟩

/-- The operations `controller.cpp` calls but does not define, over a PID state type `P`.
Every PID operation receives the clock reading of its call; `update` and `updateWithoutI`
take `(value, targetValue)` in the order of the call sites and return the output together
with the new PID state. `getYaw` is the yaw that `tf::Matrix3x3(q).getRPY` returns. -/
structure Library (P : Type) where
  pidResetOne : P → ℚ → P
  pidUpdate : P → ℚ → ℚ → ℚ → ℚ × P
  pidUpdateWithoutI : P → ℚ → ℚ → ℚ → ℚ × P
  getYaw : Quaternion → ℚ

/-- The data members of `Controller` that the callbacks read or write. -/
structure Controller (P : Type) where
  m_pidX : P
  m_pidY : P
  m_pidZ : P
  m_pidYaw : P
  m_state : State
  m_goal : Pose
  m_thrust : ℚ
  m_startZ : ℚ
  m_last_thrust : ℚ
  m_last_marker : ℚ
  m_target_height : ℚ
  m_safety_start_time : ℚ

/-- What one call of `iteration` reads from its environment.
* `dt`: `e.current_real - e.last_real`;
* `now`: `ros::Time::now()` when the callback runs (code outside the landing ramp takes no time);
* `transform`: origin of the transform that `lookupTransform(m_worldFrame, m_frame, Time(0))`
  yields during this call, `none` when the lookup throws;
* `slept k`: how far the clock advances over pass `k` of the landing ramp loop
  (the `ros::Duration(0.1).sleep()` of that pass). -/
structure TickInput where
  dt : ℚ
  now : ℚ
  transform : Option Vector3
  slept : ℕ → ℚ

/-- Result of a callback: the controller afterwards, the messages published in order, and
whether a `tf` exception propagated out of the callback. -/
structure Outcome (P : Type) where
  ctrl : Controller P
  published : List Twist
  threw : Bool

variable {P : Type}

/-- `Controller::Controller`: the member initialisers. The four PID objects are built by the
PID constructor from parameters, `m_goal` is default-constructed (`goal0`), both `ros::Time`
members default to 0, and `m_target_height` has no initialiser (`junk`). -/
def Controller.init (pidX pidY pidZ pidYaw : P) (goal0 : Pose) (junk : ℚ) : Controller P :=
  { m_pidX := pidX, m_pidY := pidY, m_pidZ := pidZ, m_pidYaw := pidYaw,
    m_state := State.Idle, m_goal := goal0,
    m_thrust := 0, m_startZ := 0, m_last_thrust := 0,
    m_last_marker := 0, m_target_height := junk, m_safety_start_time := 0 }

/-- `Controller::goalChanged`. -/
def goalChanged (s : Controller P) (msg : Pose) (now : ℚ) : Controller P :=
  { s with m_goal := msg, m_last_marker := now }

/-- `Controller::pidReset`. -/
def pidReset (d : Library P) (s : Controller P) (now : ℚ) : Controller P :=
  { s with
    m_pidX := d.pidResetOne s.m_pidX now
    m_pidY := d.pidResetOne s.m_pidY now
    m_pidZ := d.pidResetOne s.m_pidZ now
    m_pidYaw := d.pidResetOne s.m_pidYaw now }

/-- `Controller::takeoff`; `transform` is the result of its `lookupTransform`. -/
def takeoff (d : Library P) (s : Controller P) (now : ℚ) (transform : Option Vector3) :
    Outcome P :=
  let s1 := { pidReset d s now with m_thrust := 25000, m_state := State.TakingOff }
  match transform with
  | none => ⟨s1, [], true⟩
  | some tf => ⟨{ s1 with m_startZ := tf.z }, [], false⟩

/-- `Controller::land`. -/
def land (s : Controller P) : Controller P :=
  { s with m_state := State.Landing }

/-- The `while` loop of `case Landing`: `start` is `m_start_time`, `t` the current clock,
`k` the number of passes made, `last` the value of `m_last_thrust`, `out` the messages
published so far. One unit of fuel is spent per evaluation of the loop condition. -/
def rampLoop (slept : ℕ → ℚ) (start : ℚ) :
    ℕ → ℕ → ℚ → ℚ → List Twist → Option (ℚ × ℚ × List Twist)
  | 0, _, _, _, _ => none
  | fuel + 1, k, t, last, out =>
    if t - start < 3 then
      rampLoop slept start fuel (k + 1) (t + slept k) (last - 2000)
        (out ++ [thrustTwist (last - 2000)])
    else
      some (t, last, out)

/-- The x (and y) command of `case Automatic`: the selection between `updateWithoutI` and
`update` on the goal offset `v`. -/
def planarUpdate (d : Library P) (pid : P) (now v : ℚ) : ℚ × P :=
  if v > 2 / 10 ∧ v < -(2 / 10) then d.pidUpdateWithoutI pid now 0 v
  else d.pidUpdate pid now 0 v

/-- The body of `case Automatic`, entered directly or by fall-through from `case Landing`;
`now` is the clock on entry and `out` the messages already published by this call. -/
def automaticCase (d : Library P) (s : Controller P) (now : ℚ) (transform : Option Vector3)
    (out : List Twist) : Outcome P :=
  if now - s.m_last_marker > 1 then
    ⟨{ s with m_state := State.SafetyLanding, m_safety_start_time := now }, out, false⟩
  else
    match transform with
    | none => ⟨s, out, true⟩
    | some _ =>
      let s1 := if s.m_state ≠ State.Landing then { s with m_target_height := 7 / 10 } else s
      let yaw := d.getYaw s1.m_goal.orientation
      let rx := planarUpdate d s1.m_pidX now s1.m_goal.position.x
      let ry := planarUpdate d s1.m_pidY now s1.m_goal.position.y
      let rz := d.pidUpdate s1.m_pidZ now s1.m_target_height s1.m_goal.position.z
      let ryaw := d.pidUpdate s1.m_pidYaw now 0 yaw
      let msg : Twist := ⟨⟨rx.1, ry.1, 39000 + rz.1⟩, ⟨0, 0, ryaw.1⟩⟩
      ⟨{ s1 with m_pidX := rx.2, m_pidY := ry.2, m_pidZ := rz.2, m_pidYaw := ryaw.2,
                 m_last_thrust := msg.linear.z },
        out ++ [msg], false⟩

/-- `Controller::iteration`. The result is `none` only when the landing ramp loop has not
left within `fuel` evaluations of its condition. -/
def iteration (d : Library P) (fuel : ℕ) (s : Controller P) (e : TickInput) :
    Option (Outcome P) :=
  match s.m_state with
  | State.TakingOff =>
    match e.transform with
    | none => some ⟨s, [], true⟩
    | some tf =>
      if tf.z > s.m_startZ + 5 / 100 then
        some ⟨{ pidReset d s e.now with m_state := State.Automatic, m_thrust := 0 }, [], false⟩
      else
        let s1 := { s with m_thrust := s.m_thrust + 10000 * e.dt }
        some ⟨s1, [thrustTwist s1.m_thrust], false⟩
  | State.Landing =>
    let s1 := { s with m_target_height := 5 / 100 }
    match e.transform with
    | none => some ⟨s1, [], true⟩
    | some tf =>
      if tf.z ≤ 35 / 100 then
        match rampLoop e.slept e.now fuel 0 e.now s1.m_last_thrust [] with
        | none => none
        | some (t, last, out) =>
          some (automaticCase d { s1 with m_last_thrust := last, m_state := State.Idle } t
            e.transform (out ++ [zeroTwist]))
      else
        some (automaticCase d s1 e.now e.transform [])
  | State.Automatic => some (automaticCase d s e.now e.transform [])
  | State.Idle => some ⟨s, [zeroTwist], false⟩
  | State.SafetyLanding =>
    if e.now - s.m_safety_start_time < 3 ∧ s.m_last_thrust > 0 then
      let z := s.m_last_thrust - 10000 * e.dt
      some ⟨{ s with m_last_thrust := z }, [thrustTwist z], false⟩
    else
      some ⟨{ s with m_state := State.Idle }, [], false⟩

/-- Result of a run of consecutive calls of `iteration`: the controller afterwards, the
messages published by each completed call (one list per call, in order) and whether the run
was ended by a `tf` exception. -/
structure Run (P : Type) where
  ctrl : Controller P
  published : List (List Twist)
  threw : Bool

/-- Consecutive timer callbacks, one per input. A call that throws ends the run (the
exception leaves `ros::spin`). The result is `none` only when a landing ramp ran out of
fuel. -/
def runTicks (d : Library P) (fuel : ℕ) : Controller P → List TickInput → Option (Run P)
  | s, [] => some ⟨s, [], false⟩
  | s, e :: es =>
    match iteration d fuel s e with
    | none => none
    | some o =>
      if o.threw then some ⟨o.ctrl, [o.published], true⟩
      else
        match runTicks d fuel o.ctrl es with
        | none => none
        | some r => some ⟨r.ctrl, o.published :: r.published, r.threw⟩

/-- The `linear.z` components of a list of messages. -/
def thrusts (l : List Twist) : List ℚ := l.map fun m => m.linear.z

/-! ## Single-precision arithmetic of the safety landing -/

/-- The integer nearest to `x`, ties to the even one. -/
def rne (x : ℚ) : ℤ :=
  if x - ⌊x⌋ < 1 / 2 then ⌊x⌋
  else if 1 / 2 < x - ⌊x⌋ then ⌊x⌋ + 1
  else if ⌊x⌋ % 2 = 0 then ⌊x⌋
  else ⌊x⌋ + 1

/-- The exponent of the binade of `x` in binary32: `⌊log₂ |x|⌋`, and the least normal
exponent -126 for every smaller magnitude (gradual underflow). -/
def binade (x : ℚ) : ℤ := max (Int.log 2 |x|) (-126)

/-- The spacing of the binary32 values in the binade of `x` (24-bit significand). -/
def ulp (x : ℚ) : ℚ := (2 : ℚ) ^ (binade x - 23)

/-- The binary32 value nearest to `x`, ties to even: the rounding of every C++ `float`
operation. The exponent is not bounded above: a result of magnitude `2^128` or more, which
binary32 replaces by an infinity, is outside this model and excluded by hypothesis where
`f32` is used. -/
def f32 (x : ℚ) : ℚ := (rne (x / ulp x) : ℚ) * ulp x

/-- The rational `x` is a binary32 value, such as the value of a `float` member. -/
def IsF32 (x : ℚ) : Prop := f32 x = x

instance (x : ℚ) : Decidable (IsF32 x) := inferInstanceAs (Decidable (f32 x = x))

/-- The expression `m_last_thrust - 10000*dt` of `case SafetyLanding` as C++ evaluates it:
`m_last_thrust` and `dt` are `float`, so the product and the difference are
single-precision operations, each rounded by `f32`; with `fused` the compiler has
contracted them into one fused multiply-subtract, rounded once. -/
def thrustStepF32 (fused : Bool) (last dt : ℚ) : ℚ :=
  f32 (last - (if fused then 10000 * dt else f32 (10000 * dt)))

/-- `Controller::iteration` with the `float` arithmetic of `case SafetyLanding` rounded
(`thrustStepF32`). The published `linear.z` (a `double`) and the value stored back hold
that `float` exactly, and the guard compares exactly. The other cases are those of
`iteration`; `case Idle`, the only other one a run that starts in `SafetyLanding` reaches,
has no arithmetic. -/
def iterationF32 (d : Library P) (fuel : ℕ) (fused : Bool) (s : Controller P) (e : TickInput) :
    Option (Outcome P) :=
  match s.m_state with
  | State.SafetyLanding =>
    if e.now - s.m_safety_start_time < 3 ∧ s.m_last_thrust > 0 then
      let z := thrustStepF32 fused s.m_last_thrust e.dt
      some ⟨{ s with m_last_thrust := z }, [thrustTwist z], false⟩
    else
      some ⟨{ s with m_state := State.Idle }, [], false⟩
  | _ => iteration d fuel s e

/-- Consecutive timer callbacks as `runTicks`, each taken by `iterationF32`. -/
def runTicksF32 (d : Library P) (fuel : ℕ) (fused : Bool) :
    Controller P → List TickInput → Option (Run P)
  | s, [] => some ⟨s, [], false⟩
  | s, e :: es =>
    match iterationF32 d fuel fused s e with
    | none => none
    | some o =>
      if o.threw then some ⟨o.ctrl, [o.published], true⟩
      else
        match runTicksF32 d fuel fused o.ctrl es with
        | none => none
        | some r => some ⟨r.ctrl, o.published :: r.published, r.threw⟩

/-- The thrust values (`linear.z`) published by consecutive ticks of `iterationF32` for as
long as the phase at the start of the tick is `ph`. -/
def thrustsWhileF32 (d : Library P) (fuel : ℕ) (fused : Bool) (ph : State) :
    Controller P → List TickInput → List ℚ
  | _, [] => []
  | s, e :: es =>
    if s.m_state = ph then
      match iterationF32 d fuel fused s e with
      | none => []
      | some o =>
        thrusts o.published ++
          (if o.threw then [] else thrustsWhileF32 d fuel fused ph o.ctrl es)
    else []

/-- The first `n` commands of a landing ramp that starts from last thrust `L`: command
`k` (counted from 1) has linear x = 0, linear y = 0 and linear z = `L - 2000 * k`. -/
def rampCommands (L : ℚ) (n : ℕ) : List Twist :=
  (List.range n).map fun (i : ℕ) => ⟨⟨0, 0, L - 2000 * ((i : ℚ) + 1)⟩, ⟨0, 0, 0⟩⟩

/-- What the result of a callback shows apart from the value left in `m_target_height`:
the messages published, whether it threw, and every other member of the controller. -/
def Outcome.exceptTarget (o : Outcome P) : List Twist × Bool × Controller P :=
  (o.published, o.threw, { o.ctrl with m_target_height := 0 })

/-! ## A concrete PID and concrete controller states -/

/-- Modelled from the spec: the `PID` class of `pid.hpp`, which is not among the sources.
Attributes as in the data model: the three gains, output and integral limits, accumulated
integral, previous error and previous timestamp (`none` after construction or `reset`),
and the nominal period used for `dt` on the first call. -/
structure PID where
  kp : ℚ
  kd : ℚ
  ki : ℚ
  minOutput : ℚ
  maxOutput : ℚ
  integratorMin : ℚ
  integratorMax : ℚ
  nominalPeriod : ℚ
  integral : ℚ
  previousError : ℚ
  previousTime : Option ℚ
  deriving DecidableEq, Repr

/-- Clamp `v` to `[lo, hi]`. -/
def clamp (v lo hi : ℚ) : ℚ := max (min v hi) lo

/-- Modelled from the spec: `dt` of a PID call is the time since the previous call, the
nominal period on the first call after `reset`. -/
def PID.dt (p : PID) (now : ℚ) : ℚ :=
  match p.previousTime with
  | none => p.nominalPeriod
  | some t => now - t

/-- Modelled from the spec: `reset()` zeroes the integral and the previous-error state. -/
def PID.reset (p : PID) (_now : ℚ) : PID :=
  { p with integral := 0, previousError := 0, previousTime := none }

/-- Modelled from the spec: `update(setpoint, measurement)`: error = setpoint − measurement,
the integral accumulates error × dt and is clamped, the derivative is taken on the raw error,
and the output kp×error + ki×integral + kd×derivative is clamped. -/
def PID.update (p : PID) (now setpoint measurement : ℚ) : ℚ × PID :=
  let dt := p.dt now
  let error := setpoint - measurement
  let integral := clamp (p.integral + error * dt) p.integratorMin p.integratorMax
  let derivative := (error - p.previousError) / dt
  (clamp (p.kp * error + p.ki * integral + p.kd * derivative) p.minOutput p.maxOutput,
    { p with integral := integral, previousError := error, previousTime := some now })

/-- Modelled from the spec: `updateWithoutI(setpoint, measurement)`: as `update`, without the
integral accumulation. -/
def PID.updateWithoutI (p : PID) (now setpoint measurement : ℚ) : ℚ × PID :=
  let dt := p.dt now
  let error := setpoint - measurement
  let derivative := (error - p.previousError) / dt
  (clamp (p.kp * error + p.ki * p.integral + p.kd * derivative) p.minOutput p.maxOutput,
    { p with previousError := error, previousTime := some now })

/-- The library instance built from the PID above. Its `getYaw` is exact on orientations
without rotation about any axis (`x = y = z = 0`), the only ones the examples use. -/
def specLibrary : Library PID :=
  { pidResetOne := PID.reset
    pidUpdate := PID.update
    pidUpdateWithoutI := PID.updateWithoutI
    getYaw := fun _ => 0 }

/-- A PID as constructed: the given gains, limits ±`lim`, 0.02 s nominal period. -/
def pidOf (kp kd ki lim : ℚ) : PID :=
  { kp := kp, kd := kd, ki := ki, minOutput := -lim, maxOutput := lim,
    integratorMin := -lim, integratorMax := lim, nominalPeriod := 1 / 50,
    integral := 0, previousError := 0, previousTime := none }

/-- The identity pose at the origin. -/
def originPose : Pose := ⟨⟨0, 0, 0⟩, ⟨0, 0, 0, 1⟩⟩

/-- A freshly constructed controller (phase `Idle`). -/
def freshController : Controller PID :=
  Controller.init (pidOf 40 20 2 30) (pidOf 40 20 2 30) (pidOf 5000 6000 3500 15000)
    (pidOf 200 20 0 200) originPose 0

/-- A controller in the given phase with the given last thrust, otherwise as constructed. -/
def controllerIn (st : State) (last : ℚ) : Controller PID :=
  { freshController with m_state := st, m_last_thrust := last }

/-- A timer event at clock `now` with period `dt`, the vehicle at altitude `z`, and a
landing ramp whose passes each take 0.1 s. -/
def tickAt (now dt z : ℚ) : TickInput :=
  { dt := dt, now := now, transform := some ⟨0, 0, z⟩, slept := fun _ => 1 / 10 }

/-! ## The Automatic control law as the specification words it -/

/-- The four PID controllers of a controller, x, y, z and yaw. -/
structure Pids (P : Type) where
  x : P
  y : P
  z : P
  yaw : P

/-- The PID members of a controller. -/
def Controller.pids (s : Controller P) : Pids P := ⟨s.m_pidX, s.m_pidY, s.m_pidZ, s.m_pidYaw⟩

/-- The Automatic control law in the words of the specification, for target height `h`: the
yaw is extracted from the goal orientation; x and y each use the integral-suppressing update
when the goal offset satisfies `offset > 0.2 AND offset < -0.2` and the ordinary update
otherwise; the z command is the hover bias 39000 plus PID(`h`, goal z); the yaw command is
PID(0, yaw). The result is the 4-axis command, the new PID states and the value recorded as
last thrust (the z component of the command). -/
def specAutomaticLaw (d : Library P) (h : ℚ) (p : Pids P) (goal : Pose) (now : ℚ) :
    Twist × Pids P × ℚ :=
  let yaw := d.getYaw goal.orientation
  let cx :=
    if goal.position.x > 2 / 10 ∧ goal.position.x < -(2 / 10) then
      d.pidUpdateWithoutI p.x now 0 goal.position.x
    else d.pidUpdate p.x now 0 goal.position.x
  let cy :=
    if goal.position.y > 2 / 10 ∧ goal.position.y < -(2 / 10) then
      d.pidUpdateWithoutI p.y now 0 goal.position.y
    else d.pidUpdate p.y now 0 goal.position.y
  let cz := d.pidUpdate p.z now h goal.position.z
  let cyaw := d.pidUpdate p.yaw now 0 yaw
  (⟨⟨cx.1, cy.1, 39000 + cz.1⟩, ⟨0, 0, cyaw.1⟩⟩, ⟨cx.2, cy.2, cz.2, cyaw.2⟩, 39000 + cz.1)

/-- The commands of the specification law with target height `h` run tick after tick on the
clock readings `nows`, threading the PID states. -/
def specAutomaticRun (d : Library P) (h : ℚ) (goal : Pose) : Pids P → List ℚ → List Twist
  | _, [] => []
  | p, now :: rest =>
    (specAutomaticLaw d h p goal now).1 ::
      specAutomaticRun d h goal (specAutomaticLaw d h p goal now).2.1 rest

/-! ## Watchdog, safety landing, take-off and idle ticks -/

/-- C1 (watchdog). In phase `Automatic`, when `now - m_last_marker > 1.0` the tick ends in
`SafetyLanding` with `m_safety_start_time = now`, publishes nothing, raises nothing and
leaves every other member (the four PIDs, `m_last_thrust`, `m_thrust`, ...) as it was; this
holds for every vehicle transform, an unavailable one included, and every goal pose. When
the difference is at most 1.0 the tick does not enter `SafetyLanding`: the phase stays
`Automatic`. -/
theorem watchdog_automatic (d : Library P) (fuel : ℕ) (s : Controller P) (e : TickInput)
    (hs : s.m_state = State.Automatic) :
    (e.now - s.m_last_marker > 1 →
      iteration d fuel s e =
          some ⟨{ s with m_state := State.SafetyLanding, m_safety_start_time := e.now },
            [], false⟩ ∧
        ∀ (tf : Option Vector3) (g : Pose),
          iteration d fuel { s with m_goal := g } { e with transform := tf } =
            some ⟨{ s with m_goal := g, m_state := State.SafetyLanding,
                           m_safety_start_time := e.now }, [], false⟩) ∧
    (e.now - s.m_last_marker ≤ 1 →
      ∃ o, iteration d fuel s e = some o ∧ o.ctrl.m_state ≠ State.SafetyLanding ∧
        o.ctrl.m_state = State.Automatic) := by
  refine ⟨fun h => ⟨?_, fun tf g => ?_⟩, fun h => ?_⟩
  · simp [iteration, hs, automaticCase, h]
  · simp [iteration, hs, automaticCase, h]
  · have h1 : ¬ (1 < e.now - s.m_last_marker) := not_lt.mpr h
    cases ht : e.transform with
    | none => exact ⟨_, by simp [iteration, hs, automaticCase, h1, ht]; rfl, by simp [hs], hs⟩
    | some tf =>
      refine ⟨_, by simp [iteration, hs, automaticCase, h1, ht]; rfl, ?_, ?_⟩ <;>
        simp [hs]

/-- Witness for C1: a controller in `Automatic` whose goal is 10 s old. -/
theorem watchdog_automatic_witness :
    (controllerIn State.Automatic 50000).m_state = State.Automatic ∧
      (tickAt 10 (1 / 50) (3 / 10)).now - (controllerIn State.Automatic 50000).m_last_marker > 1 ∧
      iteration specLibrary 0 (controllerIn State.Automatic 50000) (tickAt 10 (1 / 50) (3 / 10)) =
        some ⟨{ controllerIn State.Automatic 50000 with
                  m_state := State.SafetyLanding,
                  m_safety_start_time := (tickAt 10 (1 / 50) (3 / 10)).now }, [], false⟩ :=
  have h : (tickAt 10 (1 / 50) (3 / 10)).now -
      (controllerIn State.Automatic 50000).m_last_marker > 1 := by
    norm_num [tickAt, controllerIn, freshController, Controller.init]
  ⟨rfl, h, ((watchdog_automatic specLibrary 0 (controllerIn State.Automatic 50000)
    (tickAt 10 (1 / 50) (3 / 10)) rfl).1 h).1⟩

/-- C5 (safety-landing step). In phase `SafetyLanding`: when `now - m_safety_start_time < 3.0`
and `m_last_thrust > 0` the tick publishes exactly one command, with linear x = 0, linear
y = 0, angular z = 0 and linear z = `m_last_thrust - 10000*dt`, stores that z in
`m_last_thrust` and keeps the phase; otherwise it publishes nothing, keeps `m_last_thrust`
and sets the phase to `Idle`. In both cases the PIDs are untouched, and the result is the
same for every vehicle transform, goal pose and PID state (apart from carrying them
along). -/
theorem safety_landing_step (d : Library P) (fuel : ℕ) (s : Controller P) (e : TickInput)
    (hs : s.m_state = State.SafetyLanding) :
    (e.now - s.m_safety_start_time < 3 ∧ s.m_last_thrust > 0 →
      ∀ (tf : Option Vector3) (g : Pose) (px py pz pyaw : P),
        iteration d fuel
            { s with m_goal := g, m_pidX := px, m_pidY := py, m_pidZ := pz, m_pidYaw := pyaw }
            { e with transform := tf } =
          some ⟨{ s with m_goal := g, m_pidX := px, m_pidY := py, m_pidZ := pz,
                         m_pidYaw := pyaw,
                         m_last_thrust := s.m_last_thrust - 10000 * e.dt },
            [⟨⟨0, 0, s.m_last_thrust - 10000 * e.dt⟩, ⟨0, 0, 0⟩⟩], false⟩) ∧
    (¬ (e.now - s.m_safety_start_time < 3 ∧ s.m_last_thrust > 0) →
      ∀ (tf : Option Vector3) (g : Pose) (px py pz pyaw : P),
        iteration d fuel
            { s with m_goal := g, m_pidX := px, m_pidY := py, m_pidZ := pz, m_pidYaw := pyaw }
            { e with transform := tf } =
          some ⟨{ s with m_goal := g, m_pidX := px, m_pidY := py, m_pidZ := pz,
                         m_pidYaw := pyaw, m_state := State.Idle }, [], false⟩) := by
  refine ⟨fun h tf g px py pz pyaw => ?_, fun h tf g px py pz pyaw => ?_⟩
  · simp [iteration, hs, h.1, h.2, thrustTwist]
  · have h2 : ¬ (e.now - s.m_safety_start_time < 3 ∧ 0 < s.m_last_thrust) := h
    simp only [iteration, hs, h2, if_false]

/-- Witness for C5: a safety landing entered at clock 0 with last thrust 50000, ticked at
clock 1 with a 0.02 s period. -/
theorem safety_landing_step_witness :
    (controllerIn State.SafetyLanding 50000).m_state = State.SafetyLanding ∧
      iteration specLibrary 0 (controllerIn State.SafetyLanding 50000)
          (tickAt 1 (1 / 50) (3 / 10)) =
        some ⟨{ controllerIn State.SafetyLanding 50000 with m_last_thrust := 49800 },
          [⟨⟨0, 0, 49800⟩, ⟨0, 0, 0⟩⟩], false⟩ := by
  refine ⟨rfl, ?_⟩
  have h := (safety_landing_step specLibrary 0 (controllerIn State.SafetyLanding 50000)
    (tickAt 1 (1 / 50) (3 / 10)) rfl).1
    (by norm_num [tickAt, controllerIn, freshController, Controller.init])
    (some ⟨0, 0, 3 / 10⟩) originPose (pidOf 40 20 2 30) (pidOf 40 20 2 30)
    (pidOf 5000 6000 3500 15000) (pidOf 200 20 0 200)
  have e1 : (50000 : ℚ) - 10000 * 50⁻¹ = 49800 := by norm_num
  simpa [tickAt, controllerIn, freshController, Controller.init, e1] using h

/-- C9 (idle). A newly constructed controller is in phase `Idle`; in phase `Idle` a tick
publishes exactly one command, whose six components are all 0, and leaves the whole
controller as it was. -/
theorem idle_tick (d : Library P) (fuel : ℕ) (pidX pidY pidZ pidYaw : P) (goal0 : Pose)
    (junk : ℚ) (s : Controller P) (e : TickInput) :
    (Controller.init pidX pidY pidZ pidYaw goal0 junk).m_state = State.Idle ∧
      (s.m_state = State.Idle →
        iteration d fuel s e = some ⟨s, [⟨⟨0, 0, 0⟩, ⟨0, 0, 0⟩⟩], false⟩) := by
  refine ⟨rfl, fun hs => ?_⟩
  simp [iteration, hs, zeroTwist]

/-- Witness for C9: the freshly constructed controller, ticked once. -/
theorem idle_tick_witness :
    freshController.m_state = State.Idle ∧
      iteration specLibrary 0 freshController (tickAt 1 (1 / 50) 0) =
        some ⟨freshController, [⟨⟨0, 0, 0⟩, ⟨0, 0, 0⟩⟩], false⟩ :=
  ⟨rfl, (idle_tick specLibrary 0 (pidOf 40 20 2 30) (pidOf 40 20 2 30)
    (pidOf 5000 6000 3500 15000) (pidOf 200 20 0 200) originPose 0 freshController
    (tickAt 1 (1 / 50) 0)).2 rfl⟩

/-! ## Landing near the ground and the number of commands per tick -/

/-- C2 (landing near the ground), evaluated on the code: a controller in `Landing` with last
thrust 50000 whose goal was refreshed at clock 10 is ticked at clock 10 with the vehicle at
altitude 0.3 and ramp passes of 0.1 s. After the 30 ramp commands and the zero command the
call continues into `case Automatic`, where the goal is by then 3 s old: the phase after
the tick is `SafetyLanding`, not `Idle`. -/
theorem landing_near_ground_failing :
    (iteration specLibrary 31 (goalChanged (controllerIn State.Landing 50000) originPose 10)
        (tickAt 10 (1 / 50) (3 / 10))).map
        (fun o => (o.ctrl.m_state, o.ctrl.m_safety_start_time, o.ctrl.m_last_thrust,
          o.published.length, o.published.getLast?)) =
      some (State.SafetyLanding, 13, -10000, 31, some ⟨⟨0, 0, 0⟩, ⟨0, 0, 0⟩⟩) := by
  norm_num [iteration, goalChanged, controllerIn, freshController, Controller.init, tickAt,
    rampLoop, automaticCase, zeroTwist]

/-- C3 as stated fails: a tick in `Automatic` with a goal 10 s old publishes no command, and a
tick in `Landing` at altitude 0.3 publishes 31 commands. -/
theorem one_command_per_tick_counterexample :
    (iteration specLibrary 0 (controllerIn State.Automatic 50000)
        (tickAt 10 (1 / 50) (3 / 10))).map (fun o => o.published.length) = some 0 ∧
      (iteration specLibrary 31 (controllerIn State.Landing 50000)
        (tickAt 10 (1 / 50) (3 / 10))).map (fun o => o.published.length) = some 31 := by
  constructor
  · norm_num [iteration, controllerIn, freshController, Controller.init, tickAt, automaticCase]
  · norm_num [iteration, controllerIn, freshController, Controller.init, tickAt,
      rampLoop, automaticCase, zeroTwist]

/-- C3 (amended). A tick that does not run the landing ramp (it is not in `Landing` at an
altitude `≤ 0.35`) returns and publishes at most one command. It publishes exactly one
command in `Idle`, in `TakingOff` at an altitude `≤ m_startZ + 0.05`, in `Automatic` or
`Landing` when the goal is at most 1.0 s old and the vehicle transform is available, and in
`SafetyLanding` while `now - m_safety_start_time < 3.0` and `m_last_thrust > 0`; in every
other case it publishes none. -/
theorem commands_per_tick (d : Library P) (fuel : ℕ) (s : Controller P) (e : TickInput)
    (hr : ¬ (s.m_state = State.Landing ∧ ∃ tf, e.transform = some tf ∧ tf.z ≤ 35 / 100)) :
    ∃ o, iteration d fuel s e = some o ∧ o.published.length ≤ 1 ∧
      (o.published.length = 1 ↔
        s.m_state = State.Idle ∨
        (s.m_state = State.TakingOff ∧
          ∃ tf, e.transform = some tf ∧ tf.z ≤ s.m_startZ + 5 / 100) ∨
        ((s.m_state = State.Automatic ∨ s.m_state = State.Landing) ∧
          e.now - s.m_last_marker ≤ 1 ∧ e.transform ≠ none) ∨
        (s.m_state = State.SafetyLanding ∧
          e.now - s.m_safety_start_time < 3 ∧ s.m_last_thrust > 0)) := by
  have hauto : ∀ s1 : Controller P, s1.m_last_marker = s.m_last_marker →
      (automaticCase d s1 e.now e.transform []).published.length ≤ 1 ∧
      ((automaticCase d s1 e.now e.transform []).published.length = 1 ↔
        (e.now - s.m_last_marker ≤ 1 ∧ e.transform ≠ none)) := by
    intro s1 h1
    unfold automaticCase
    rw [h1]
    by_cases hw : e.now - s.m_last_marker > 1
    · have hw2 : ¬ (e.now - s.m_last_marker ≤ 1) := not_le.mpr hw
      simp [hw, hw2]
    · have hw2 : e.now - s.m_last_marker ≤ 1 := not_lt.mp hw
      rw [if_neg hw]
      cases ht : e.transform with
      | none => simp
      | some tf => simp [hw2]
  unfold iteration
  cases hs : s.m_state with
  | Idle => exact ⟨_, rfl, by simp, by simp⟩
  | Automatic =>
    refine ⟨_, rfl, (hauto s rfl).1, ?_⟩
    rw [(hauto s rfl).2]
    simp
  | TakingOff =>
    cases ht : e.transform with
    | none => exact ⟨_, rfl, by simp, by simp⟩
    | some tf =>
      by_cases hz : tf.z > s.m_startZ + 5 / 100
      · have hz2 : ¬ (tf.z ≤ s.m_startZ + 5 / 100) := not_le.mpr hz
        simp only [if_pos hz]
        exact ⟨_, rfl, by simp, by simp [hz2]⟩
      · have hz2 : tf.z ≤ s.m_startZ + 5 / 100 := not_lt.mp hz
        simp only [if_neg hz]
        exact ⟨_, rfl, by simp, by simp [hz2]⟩
  | Landing =>
    cases ht : e.transform with
    | none => exact ⟨_, rfl, by simp, by simp⟩
    | some tf =>
      have hz : ¬ (tf.z ≤ 35 / 100) := fun h => hr ⟨hs, tf, ht, h⟩
      have key := hauto { s with m_target_height := 5 / 100 } rfl
      rw [ht, hs] at key
      simp only [if_neg hz]
      refine ⟨_, rfl, key.1, ?_⟩
      rw [key.2]
      simp
  | SafetyLanding =>
    by_cases hc : e.now - s.m_safety_start_time < 3 ∧ s.m_last_thrust > 0
    · simp only [if_pos hc]
      exact ⟨_, rfl, by simp, by simp [hc.1, hc.2]⟩
    · simp only [if_neg hc]
      refine ⟨_, rfl, by simp, ?_⟩
      simp only [List.length_nil]
      constructor
      · intro h
        exact absurd h (by decide)
      · intro h
        rcases h with h | h | h | h
        · cases h
        · cases h.1
        · rcases h.1 with h | h <;> cases h
        · exact absurd h.2 hc

/-- Witness for C3 (amended): an `Idle` controller is not running the landing ramp. -/
theorem commands_per_tick_witness :
    ¬ ((controllerIn State.Idle 0).m_state = State.Landing ∧
        ∃ tf, (tickAt 1 (1 / 50) 0).transform = some tf ∧ tf.z ≤ 35 / 100) ∧
      ∃ o, iteration specLibrary 0 (controllerIn State.Idle 0) (tickAt 1 (1 / 50) 0) = some o ∧
        o.published.length ≤ 1 ∧
        (o.published.length = 1 ↔
          (controllerIn State.Idle 0).m_state = State.Idle ∨
          ((controllerIn State.Idle 0).m_state = State.TakingOff ∧
            ∃ tf, (tickAt 1 (1 / 50) 0).transform = some tf ∧
              tf.z ≤ (controllerIn State.Idle 0).m_startZ + 5 / 100) ∨
          (((controllerIn State.Idle 0).m_state = State.Automatic ∨
              (controllerIn State.Idle 0).m_state = State.Landing) ∧
            (tickAt 1 (1 / 50) 0).now - (controllerIn State.Idle 0).m_last_marker ≤ 1 ∧
            (tickAt 1 (1 / 50) 0).transform ≠ none) ∨
          ((controllerIn State.Idle 0).m_state = State.SafetyLanding ∧
            (tickAt 1 (1 / 50) 0).now - (controllerIn State.Idle 0).m_safety_start_time < 3 ∧
            (controllerIn State.Idle 0).m_last_thrust > 0)) :=
  have h : ¬ ((controllerIn State.Idle 0).m_state = State.Landing ∧
      ∃ tf, (tickAt 1 (1 / 50) 0).transform = some tf ∧ tf.z ≤ 35 / 100) :=
    fun h => absurd h.1 (by decide)
  ⟨h, commands_per_tick specLibrary 0 (controllerIn State.Idle 0) (tickAt 1 (1 / 50) 0) h⟩

/-! ## Landing above the threshold -/

/-- One tick of `case Landing` above the threshold with a fresh goal, in terms of the
specification law with target height 0.05. -/
theorem landing_tick_eq (d : Library P) (fuel : ℕ) (s : Controller P) (e : TickInput)
    (tf : Vector3) (hs : s.m_state = State.Landing) (ht : e.transform = some tf)
    (hz : tf.z > 35 / 100) (hg : e.now - s.m_last_marker ≤ 1) :
    iteration d fuel s e =
      some ⟨{ s with
                m_target_height := 5 / 100
                m_pidX := (specAutomaticLaw d (5 / 100) s.pids s.m_goal e.now).2.1.x
                m_pidY := (specAutomaticLaw d (5 / 100) s.pids s.m_goal e.now).2.1.y
                m_pidZ := (specAutomaticLaw d (5 / 100) s.pids s.m_goal e.now).2.1.z
                m_pidYaw := (specAutomaticLaw d (5 / 100) s.pids s.m_goal e.now).2.1.yaw
                m_last_thrust := (specAutomaticLaw d (5 / 100) s.pids s.m_goal e.now).2.2 },
        [(specAutomaticLaw d (5 / 100) s.pids s.m_goal e.now).1], false⟩ := by
  have hz1 : ¬ (tf.z ≤ 35 / 100) := not_le.mpr hz
  have hg1 : ¬ (1 < e.now - s.m_last_marker) := not_lt.mpr hg
  simp [iteration, hs, ht, hz1, automaticCase, hg1, specAutomaticLaw, planarUpdate,
    Controller.pids]

/-- One tick of `case Automatic` with a fresh goal and an available transform, in terms of
the specification law with target height 0.7. -/
theorem automatic_tick_eq (d : Library P) (fuel : ℕ) (s : Controller P) (e : TickInput)
    (tf : Vector3) (hs : s.m_state = State.Automatic) (ht : e.transform = some tf)
    (hg : e.now - s.m_last_marker ≤ 1) :
    iteration d fuel s e =
      some ⟨{ s with
                m_target_height := 7 / 10
                m_pidX := (specAutomaticLaw d (7 / 10) s.pids s.m_goal e.now).2.1.x
                m_pidY := (specAutomaticLaw d (7 / 10) s.pids s.m_goal e.now).2.1.y
                m_pidZ := (specAutomaticLaw d (7 / 10) s.pids s.m_goal e.now).2.1.z
                m_pidYaw := (specAutomaticLaw d (7 / 10) s.pids s.m_goal e.now).2.1.yaw
                m_last_thrust := (specAutomaticLaw d (7 / 10) s.pids s.m_goal e.now).2.2 },
        [(specAutomaticLaw d (7 / 10) s.pids s.m_goal e.now).1], false⟩ := by
  have hg1 : ¬ (1 < e.now - s.m_last_marker) := not_lt.mpr hg
  simp [iteration, hs, ht, automaticCase, hg1, specAutomaticLaw, planarUpdate,
    Controller.pids]

/-- A run of `case Landing` ticks above the threshold with a fresh goal publishes, tick for
tick, the commands of the specification law with target height 0.05. -/
theorem landing_run_eq (d : Library P) (fuel : ℕ) (es : List TickInput) :
    ∀ s : Controller P, s.m_state = State.Landing →
      (∀ e ∈ es, ∃ tf, e.transform = some tf ∧ tf.z > 35 / 100 ∧
        e.now - s.m_last_marker ≤ 1) →
      ∃ r, runTicks d fuel s es = some r ∧ r.threw = false ∧
        r.ctrl.m_state = State.Landing ∧
        r.published =
          (specAutomaticRun d (5 / 100) s.m_goal s.pids (es.map fun e => e.now)).map
            fun c => [c] := by
  induction es with
  | nil =>
    intro s hs _
    exact ⟨_, rfl, rfl, hs, rfl⟩
  | cons e es ih =>
    intro s hs hall
    obtain ⟨tf, ht, hz, hg⟩ := hall e (List.mem_cons_self _ _)
    have hstep := landing_tick_eq d fuel s e tf hs ht hz hg
    obtain ⟨r, hr, hthrew, hst, hpub⟩ := ih
      { s with
          m_target_height := 5 / 100
          m_pidX := (specAutomaticLaw d (5 / 100) s.pids s.m_goal e.now).2.1.x
          m_pidY := (specAutomaticLaw d (5 / 100) s.pids s.m_goal e.now).2.1.y
          m_pidZ := (specAutomaticLaw d (5 / 100) s.pids s.m_goal e.now).2.1.z
          m_pidYaw := (specAutomaticLaw d (5 / 100) s.pids s.m_goal e.now).2.1.yaw
          m_last_thrust := (specAutomaticLaw d (5 / 100) s.pids s.m_goal e.now).2.2 }
      hs (fun e1 he1 => hall e1 (List.mem_cons_of_mem _ he1))
    refine ⟨⟨r.ctrl, [(specAutomaticLaw d (5 / 100) s.pids s.m_goal e.now).1] :: r.published,
      r.threw⟩, ?_, hthrew, hst, ?_⟩
    · simp only [runTicks, hstep, hr]
      simp
    · simp only [hpub, List.map_cons, specAutomaticRun]
      rfl

/-- C4 (landing above the threshold is Automatic with a low target). From phase `Landing`, a
tick at an altitude above 0.35 with a goal at most 1.0 s old publishes exactly the command
of the Automatic control law with target height 0.05 run on the same PID states, goal and
clock, leaves the four PIDs and `m_last_thrust` as that law leaves them, and keeps the phase
`Landing`; the same tick taken from phase `Automatic` is that law with target height 0.7.
Over any sequence of such ticks the published commands agree, tick for tick, with those of
the law with target height 0.05. -/
theorem landing_matches_automatic_low_target (d : Library P) (fuel : ℕ) (s : Controller P)
    (hs : s.m_state = State.Landing) :
    (∀ (e : TickInput) (tf : Vector3), e.transform = some tf → tf.z > 35 / 100 →
      e.now - s.m_last_marker ≤ 1 →
      iteration d fuel s e =
          some ⟨{ s with
                    m_state := State.Landing
                    m_target_height := 5 / 100
                    m_pidX := (specAutomaticLaw d (5 / 100) s.pids s.m_goal e.now).2.1.x
                    m_pidY := (specAutomaticLaw d (5 / 100) s.pids s.m_goal e.now).2.1.y
                    m_pidZ := (specAutomaticLaw d (5 / 100) s.pids s.m_goal e.now).2.1.z
                    m_pidYaw := (specAutomaticLaw d (5 / 100) s.pids s.m_goal e.now).2.1.yaw
                    m_last_thrust := (specAutomaticLaw d (5 / 100) s.pids s.m_goal e.now).2.2 },
            [(specAutomaticLaw d (5 / 100) s.pids s.m_goal e.now).1], false⟩ ∧
        iteration d fuel { s with m_state := State.Automatic } e =
          some ⟨{ s with
                    m_state := State.Automatic
                    m_target_height := 7 / 10
                    m_pidX := (specAutomaticLaw d (7 / 10) s.pids s.m_goal e.now).2.1.x
                    m_pidY := (specAutomaticLaw d (7 / 10) s.pids s.m_goal e.now).2.1.y
                    m_pidZ := (specAutomaticLaw d (7 / 10) s.pids s.m_goal e.now).2.1.z
                    m_pidYaw := (specAutomaticLaw d (7 / 10) s.pids s.m_goal e.now).2.1.yaw
                    m_last_thrust := (specAutomaticLaw d (7 / 10) s.pids s.m_goal e.now).2.2 },
            [(specAutomaticLaw d (7 / 10) s.pids s.m_goal e.now).1], false⟩) ∧
    (∀ es : List TickInput,
      (∀ e ∈ es, ∃ tf, e.transform = some tf ∧ tf.z > 35 / 100 ∧
        e.now - s.m_last_marker ≤ 1) →
      ∃ r, runTicks d fuel s es = some r ∧ r.threw = false ∧
        r.ctrl.m_state = State.Landing ∧
        r.published =
          (specAutomaticRun d (5 / 100) s.m_goal s.pids (es.map fun e => e.now)).map
            fun c => [c]) := by
  refine ⟨fun e tf ht hz hg => ⟨?_, ?_⟩, fun es hall => landing_run_eq d fuel es s hs hall⟩
  · rw [landing_tick_eq d fuel s e tf hs ht hz hg, ← hs]
  · exact automatic_tick_eq d fuel { s with m_state := State.Automatic } e tf rfl ht hg

/-- Witness for C4: a landing controller whose goal was refreshed at clock 10, ticked at
clock 10 with the vehicle at altitude 0.5. -/
theorem landing_matches_automatic_low_target_witness :
    (goalChanged (controllerIn State.Landing 50000) originPose 10).m_state = State.Landing ∧
      (tickAt 10 (1 / 50) (1 / 2)).transform = some ⟨0, 0, 1 / 2⟩ ∧
      (⟨0, 0, 1 / 2⟩ : Vector3).z > 35 / 100 ∧
      (tickAt 10 (1 / 50) (1 / 2)).now -
        (goalChanged (controllerIn State.Landing 50000) originPose 10).m_last_marker ≤ 1 ∧
      ∃ o, iteration specLibrary 0 (goalChanged (controllerIn State.Landing 50000) originPose 10)
          (tickAt 10 (1 / 50) (1 / 2)) = some o ∧
        o.ctrl.m_state = State.Landing ∧
        o.published =
          [(specAutomaticLaw specLibrary (5 / 100)
            (goalChanged (controllerIn State.Landing 50000) originPose 10).pids originPose
            10).1] :=
  have hz : (⟨0, 0, 1 / 2⟩ : Vector3).z > 35 / 100 := by norm_num
  have hg : (tickAt 10 (1 / 50) (1 / 2)).now -
      (goalChanged (controllerIn State.Landing 50000) originPose 10).m_last_marker ≤ 1 := by
    norm_num [tickAt, goalChanged]
  ⟨rfl, rfl, hz, hg, _,
    (((landing_matches_automatic_low_target specLibrary 0
      (goalChanged (controllerIn State.Landing 50000) originPose 10) rfl).1
      (tickAt 10 (1 / 50) (1 / 2)) ⟨0, 0, 1 / 2⟩ rfl hz hg).1), rfl, rfl⟩

/-! ## The take-off scenario and repeated requests -/

/-- C8 as stated fails: after a takeoff request at altitude 0.00, the three ticks at altitudes
0.00, 0.02 and 0.04 with `dt = 0.02` publish thrust 25200, 25400 and 25600, not 200, 400
and 600. -/
theorem takeoff_scenario_counterexample :
    (runTicks specLibrary 0 (takeoff specLibrary freshController 0 (some ⟨0, 0, 0⟩)).ctrl
        [tickAt 1 (1 / 50) 0, tickAt 2 (1 / 50) (2 / 100), tickAt 3 (1 / 50) (4 / 100),
          tickAt 4 (1 / 50) (6 / 100)]).map (fun r => r.published.map thrusts) =
        some [[25200], [25400], [25600], []] ∧
      (runTicks specLibrary 0 (takeoff specLibrary freshController 0 (some ⟨0, 0, 0⟩)).ctrl
        [tickAt 1 (1 / 50) 0, tickAt 2 (1 / 50) (2 / 100), tickAt 3 (1 / 50) (4 / 100),
          tickAt 4 (1 / 50) (6 / 100)]).map (fun r => r.published.map thrusts) ≠
        some [[200], [400], [600], []] := by
  have h : (runTicks specLibrary 0 (takeoff specLibrary freshController 0 (some ⟨0, 0, 0⟩)).ctrl
        [tickAt 1 (1 / 50) 0, tickAt 2 (1 / 50) (2 / 100), tickAt 3 (1 / 50) (4 / 100),
          tickAt 4 (1 / 50) (6 / 100)]).map (fun r => r.published.map thrusts) =
        some [[25200], [25400], [25600], []] := by
    norm_num [runTicks, iteration, takeoff, pidReset, freshController, Controller.init, tickAt,
      thrusts, thrustTwist]
  refine ⟨h, ?_⟩
  rw [h]
  norm_num

/-- C8 (amended). From the state a takeoff request at vehicle altitude 0.00 produces (phase
`TakingOff`, start altitude 0.00, accumulator preset to 25000), four ticks with `dt = 0.02`
and vehicle altitudes 0.00, 0.02, 0.04, 0.06 publish thrust 25200, 25400 and 25600 on the
first three ticks and nothing on the fourth; the phase is `TakingOff` after each of the
first three ticks, and after the fourth (altitude 0.06 > 0.05) the phase is `Automatic` and
the accumulator is 0. This holds from every prior controller state and for every clock. -/
theorem takeoff_scenario (d : Library P) (fuel : ℕ) (s : Controller P) (x y now n1 n2 n3 n4 : ℚ) :
    (takeoff d s now (some ⟨x, y, 0⟩)).ctrl.m_state = State.TakingOff ∧
      (takeoff d s now (some ⟨x, y, 0⟩)).ctrl.m_startZ = 0 ∧
      (takeoff d s now (some ⟨x, y, 0⟩)).ctrl.m_thrust = 25000 ∧
      (runTicks d fuel (takeoff d s now (some ⟨x, y, 0⟩)).ctrl
        [tickAt n1 (1 / 50) 0]).map (fun r => (r.ctrl.m_state, r.published.map thrusts)) =
        some (State.TakingOff, [[25200]]) ∧
      (runTicks d fuel (takeoff d s now (some ⟨x, y, 0⟩)).ctrl
        [tickAt n1 (1 / 50) 0, tickAt n2 (1 / 50) (2 / 100)]).map
          (fun r => (r.ctrl.m_state, r.published.map thrusts)) =
        some (State.TakingOff, [[25200], [25400]]) ∧
      (runTicks d fuel (takeoff d s now (some ⟨x, y, 0⟩)).ctrl
        [tickAt n1 (1 / 50) 0, tickAt n2 (1 / 50) (2 / 100), tickAt n3 (1 / 50) (4 / 100)]).map
          (fun r => (r.ctrl.m_state, r.published.map thrusts)) =
        some (State.TakingOff, [[25200], [25400], [25600]]) ∧
      (runTicks d fuel (takeoff d s now (some ⟨x, y, 0⟩)).ctrl
        [tickAt n1 (1 / 50) 0, tickAt n2 (1 / 50) (2 / 100), tickAt n3 (1 / 50) (4 / 100),
          tickAt n4 (1 / 50) (6 / 100)]).map
          (fun r => (r.ctrl.m_state, r.ctrl.m_thrust, r.published.map thrusts, r.threw)) =
        some (State.Automatic, 0, [[25200], [25400], [25600], []], false) := by
  refine ⟨rfl, rfl, rfl, ?_, ?_, ?_, ?_⟩ <;>
    norm_num [runTicks, iteration, takeoff, pidReset, tickAt, thrusts, thrustTwist]

/-- C10 as stated fails: a controller in `TakingOff` whose accumulator has been ramped to
25200 by one tick is changed by a further takeoff request at the same vehicle pose: the
accumulator goes back to 25000. -/
theorem takeoff_request_counterexample :
    ({ controllerIn State.TakingOff 0 with m_thrust := 25200 } : Controller PID).m_state =
        State.TakingOff ∧
      ({ controllerIn State.TakingOff 0 with m_thrust := 25200 } : Controller PID).m_startZ =
        (⟨0, 0, 0⟩ : Vector3).z ∧
      (takeoff specLibrary { controllerIn State.TakingOff 0 with m_thrust := 25200 } 1
        (some ⟨0, 0, 0⟩)).ctrl.m_thrust = 25000 ∧
      (takeoff specLibrary { controllerIn State.TakingOff 0 with m_thrust := 25200 } 1
        (some ⟨0, 0, 0⟩)).ctrl.m_thrust ≠
        ({ controllerIn State.TakingOff 0 with m_thrust := 25200 } : Controller PID).m_thrust := by
  refine ⟨rfl, rfl, rfl, ?_⟩
  norm_num [takeoff]

/-- C10 (amended). A land request in phase `Landing` leaves the controller unchanged. A
takeoff request in phase `TakingOff` at the vehicle pose of the first request (altitude
`m_startZ`) raises nothing, keeps the phase and the start altitude, resets the four PIDs
and sets the accumulator back to 25000; it leaves the controller unchanged exactly when the
accumulator is still 25000 and resetting the PIDs changes none of them. -/
theorem request_idempotence (d : Library P) (s : Controller P) (now : ℚ) (tf : Vector3) :
    (s.m_state = State.Landing → land s = s) ∧
      (s.m_state = State.TakingOff → s.m_startZ = tf.z →
        takeoff d s now (some tf) =
            ⟨{ s with
                 m_pidX := d.pidResetOne s.m_pidX now
                 m_pidY := d.pidResetOne s.m_pidY now
                 m_pidZ := d.pidResetOne s.m_pidZ now
                 m_pidYaw := d.pidResetOne s.m_pidYaw now
                 m_thrust := 25000 }, [], false⟩ ∧
          ((takeoff d s now (some tf)).ctrl = s ↔
            s.m_thrust = 25000 ∧ pidReset d s now = s)) := by
  refine ⟨fun hs => ?_, fun hs hz => ⟨?_, ?_⟩⟩
  · cases s
    simp only [land] at *
    simp [hs]
  · cases s
    simp only [takeoff, pidReset] at *
    simp [hs, hz]
  · cases s
    simp only [takeoff, pidReset] at *
    simp only [Controller.mk.injEq]
    subst hs
    subst hz
    simp only [true_and, and_true]
    tauto

/-- Witness for C10 (amended): a second land request while landing, and a second takeoff
request right after the first one, at the same pose and clock. -/
theorem request_idempotence_witness :
    ((controllerIn State.Landing 50000).m_state = State.Landing ∧
        land (controllerIn State.Landing 50000) = controllerIn State.Landing 50000) ∧
      ((takeoff specLibrary freshController 0 (some ⟨0, 0, 0⟩)).ctrl.m_state = State.TakingOff ∧
        (takeoff specLibrary freshController 0 (some ⟨0, 0, 0⟩)).ctrl.m_startZ =
          (⟨0, 0, 0⟩ : Vector3).z ∧
        (takeoff specLibrary (takeoff specLibrary freshController 0 (some ⟨0, 0, 0⟩)).ctrl 0
          (some ⟨0, 0, 0⟩)).ctrl = (takeoff specLibrary freshController 0 (some ⟨0, 0, 0⟩)).ctrl) :=
  ⟨⟨rfl, (request_idempotence specLibrary (controllerIn State.Landing 50000) 0 ⟨0, 0, 0⟩).1 rfl⟩,
    rfl, rfl,
    (((request_idempotence specLibrary
      (takeoff specLibrary freshController 0 (some ⟨0, 0, 0⟩)).ctrl 0 ⟨0, 0, 0⟩).2 rfl rfl).2).2
      ⟨rfl, rfl⟩⟩

/-! ## Runs of the safety landing -/

/-- A tick in `Idle`. -/
theorem iteration_idle (d : Library P) (fuel : ℕ) (s : Controller P) (e : TickInput)
    (hs : s.m_state = State.Idle) :
    iteration d fuel s e = some ⟨s, [zeroTwist], false⟩ := by
  simp only [iteration, hs]

/-! ### Properties of binary32 rounding -/

/-- The spacing is positive. -/
theorem ulp_pos (x : ℚ) : 0 < ulp x := by
  unfold ulp
  positivity

/-- Rounding to nearest gives the floor, or the floor plus one when the fractional part is at
least one half. -/
theorem rne_floor_or (x : ℚ) : rne x = ⌊x⌋ ∨ (rne x = ⌊x⌋ + 1 ∧ 1 / 2 ≤ x - ⌊x⌋) := by
  unfold rne
  by_cases h1 : x - ⌊x⌋ < 1 / 2
  · exact Or.inl (by simp only [h1, if_true])
  · by_cases h2 : 1 / 2 < x - ⌊x⌋
    · exact Or.inr ⟨by simp only [h1, h2, if_true, if_false], le_of_lt h2⟩
    · by_cases h3 : ⌊x⌋ % 2 = 0
      · exact Or.inl (by simp only [h1, h2, h3, if_true, if_false])
      · exact Or.inr ⟨by simp only [h1, h2, h3, if_false], not_lt.mp h1⟩

/-- An integer rounds to itself. -/
theorem rne_intCast (n : ℤ) : rne (n : ℚ) = n := by
  rcases rne_floor_or (n : ℚ) with h | ⟨_, h⟩
  · rw [h, Int.floor_intCast]
  · rw [Int.floor_intCast] at h
    norm_num at h

/-- Rounding to nearest does not pass an integer above. -/
theorem rne_le_of_le (x : ℚ) (N : ℤ) (h : x ≤ (N : ℚ)) : rne x ≤ N := by
  have hf : ⌊x⌋ ≤ N := by
    have h0 := (Int.floor_le x).trans h
    exact_mod_cast h0
  rcases rne_floor_or x with h1 | ⟨h1, h2⟩
  · rw [h1]; exact hf
  · rw [h1]
    by_contra hcon
    have hN : N = ⌊x⌋ := by omega
    have hx : (⌊x⌋ : ℚ) ≤ x := Int.floor_le x
    rw [hN] at h
    linarith

/-- Rounding to nearest does not pass an integer below. -/
theorem le_rne_of_le (x : ℚ) (N : ℤ) (h : (N : ℚ) ≤ x) : N ≤ rne x := by
  have hf : N ≤ ⌊x⌋ := Int.le_floor.mpr h
  rcases rne_floor_or x with h1 | ⟨h1, _⟩
  · rw [h1]; exact hf
  · rw [h1]; omega

/-- On positive numbers the binade exponent is monotone. -/
theorem binade_mono (x y : ℚ) (hx : 0 < x) (hxy : x ≤ y) : binade x ≤ binade y := by
  unfold binade
  rw [abs_of_pos hx, abs_of_pos (lt_of_lt_of_le hx hxy)]
  exact max_le_max (Int.log_mono_right hx hxy) le_rfl

/-- The spacing of a higher binade is a power-of-two multiple of that of a lower one. -/
theorem ulp_of_binade_le (x y : ℚ) (h : binade x ≤ binade y) :
    ∃ k : ℕ, ulp y = ((2 ^ k : ℤ) : ℚ) * ulp x := by
  refine ⟨(binade y - binade x).toNat, ?_⟩
  unfold ulp
  have hk : ((binade y - binade x).toNat : ℤ) = binade y - binade x :=
    Int.toNat_of_nonneg (by omega)
  have h2 : (2 : ℚ) ≠ 0 := by norm_num
  push_cast
  rw [← zpow_natCast, hk, ← zpow_add₀ h2]
  congr 1
  ring

/-- A binary32 value is an integer multiple of its spacing. -/
theorem isF32_repr (y : ℚ) (hy : IsF32 y) : ∃ n : ℤ, y = (n : ℚ) * ulp y :=
  ⟨rne (y / ulp y), hy.symm⟩

/-- Rounding a positive number does not pass a binary32 value above it. -/
theorem f32_le_of_le (x y : ℚ) (hx : 0 < x) (hxy : x ≤ y) (hy : IsF32 y) : f32 x ≤ y := by
  obtain ⟨k, hu⟩ := ulp_of_binade_le x y (binade_mono x y hx hxy)
  have hq := ulp_pos x
  obtain ⟨n, hn⟩ := isF32_repr y hy
  have hy2 : y = ((n * 2 ^ k : ℤ) : ℚ) * ulp x := by
    rw [hu] at hn
    calc y = (n : ℚ) * (((2 ^ k : ℤ) : ℚ) * ulp x) := hn
      _ = ((n * 2 ^ k : ℤ) : ℚ) * ulp x := by push_cast; ring
  have hdiv : x / ulp x ≤ ((n * 2 ^ k : ℤ) : ℚ) := by
    rw [div_le_iff₀ hq, ← hy2]
    exact hxy
  have hr := rne_le_of_le _ _ hdiv
  unfold f32
  calc (rne (x / ulp x) : ℚ) * ulp x
      ≤ ((n * 2 ^ k : ℤ) : ℚ) * ulp x := by
        apply mul_le_mul_of_nonneg_right _ (le_of_lt hq)
        exact_mod_cast hr
    _ = y := hy2.symm

/-- Rounding keeps a number that is not positive from becoming positive. -/
theorem f32_nonpos (x : ℚ) (hx : x ≤ 0) : f32 x ≤ 0 := by
  unfold f32
  have hq := ulp_pos x
  have h1 : x / ulp x ≤ ((0 : ℤ) : ℚ) := by
    rw [Int.cast_zero]
    exact div_nonpos_of_nonpos_of_nonneg hx (le_of_lt hq)
  have h2 : (rne (x / ulp x) : ℚ) ≤ 0 := by exact_mod_cast rne_le_of_le _ _ h1
  exact mul_nonpos_of_nonpos_of_nonneg h2 (le_of_lt hq)

/-- Rounding keeps a number that is not negative from becoming negative. -/
theorem f32_nonneg (x : ℚ) (hx : 0 ≤ x) : 0 ≤ f32 x := by
  unfold f32
  have hq := ulp_pos x
  have h1 : ((0 : ℤ) : ℚ) ≤ x / ulp x := by
    rw [Int.cast_zero]
    exact div_nonneg hx (le_of_lt hq)
  have h2 : (0 : ℚ) ≤ (rne (x / ulp x) : ℚ) := by exact_mod_cast le_rne_of_le _ _ h1
  exact mul_nonneg h2 (le_of_lt hq)

/-- The binade exponent is at least -126. -/
theorem binade_ge (x : ℚ) : -126 ≤ binade x := le_max_right _ _

/-- A number lies below the upper end of its binade. -/
theorem abs_lt_binade (x : ℚ) : |x| < (2 : ℚ) ^ (binade x + 1) := by
  have h1 : |x| < ((2 : ℕ) : ℚ) ^ (Int.log 2 |x| + 1) :=
    Int.lt_zpow_succ_log_self (by norm_num) |x|
  rw [Nat.cast_ofNat] at h1
  have h2 : (2 : ℚ) ^ (Int.log 2 |x| + 1) ≤ (2 : ℚ) ^ (binade x + 1) :=
    zpow_le_zpow_right₀ (by norm_num) (by unfold binade; have := le_max_left (Int.log 2 |x|) (-126); omega)
  exact lt_of_lt_of_le h1 h2

/-- The upper end of a binade is `2^24` spacings. -/
theorem ulp_mul (x : ℚ) : (2 : ℚ) ^ (24 : ℕ) * ulp x = (2 : ℚ) ^ (binade x + 1) := by
  unfold ulp
  have h2 : (2 : ℚ) ≠ 0 := by norm_num
  rw [← zpow_natCast, ← zpow_add₀ h2]
  congr 1
  push_cast
  ring

/-- Rounding does not leave the closed binade. -/
theorem f32_abs_le (x : ℚ) : |f32 x| ≤ (2 : ℚ) ^ (binade x + 1) := by
  have hq := ulp_pos x
  have hx := abs_lt_binade x
  rw [← ulp_mul] at hx ⊢
  have hlt := abs_lt.mp hx
  have h1 : x / ulp x ≤ (((2 : ℤ) ^ 24 : ℤ) : ℚ) := by
    rw [div_le_iff₀ hq]
    push_cast
    linarith [hlt.2]
  have h2 : (((-(2 : ℤ) ^ 24 : ℤ)) : ℚ) ≤ x / ulp x := by
    rw [le_div_iff₀ hq]
    push_cast
    linarith [hlt.1]
  have h3 : (rne (x / ulp x) : ℚ) ≤ (2 : ℚ) ^ 24 := by
    exact_mod_cast rne_le_of_le _ _ h1
  have h4 : -(2 : ℚ) ^ 24 ≤ (rne (x / ulp x) : ℚ) := by
    exact_mod_cast le_rne_of_le _ _ h2
  unfold f32
  rw [abs_le]
  constructor
  · nlinarith
  · nlinarith

/-- A multiple of the spacing of `x` within the closed binade of `x` is a multiple of its own
spacing. -/
theorem repr_of_abs_le (x y : ℚ) (m : ℤ) (hm : y = (m : ℚ) * ulp x)
    (habs : |y| ≤ (2 : ℚ) ^ (binade x + 1)) : ∃ n : ℤ, y = (n : ℚ) * ulp y := by
  by_cases hy : y = 0
  · exact ⟨0, by rw [hy]; simp⟩
  by_cases hle : binade y ≤ binade x
  · obtain ⟨k, hk⟩ := ulp_of_binade_le y x hle
    refine ⟨m * 2 ^ k, ?_⟩
    calc y = (m : ℚ) * ulp x := hm
      _ = (m : ℚ) * (((2 ^ k : ℤ) : ℚ) * ulp y) := by rw [hk]
      _ = ((m * 2 ^ k : ℤ) : ℚ) * ulp y := by push_cast; ring
  · have hgt : binade x < binade y := not_le.mp hle
    have hE := binade_ge x
    have hmax : binade y = max (Int.log 2 |y|) (-126) := rfl
    have hlog : binade x + 1 ≤ Int.log 2 |y| := by
      rw [hmax] at hgt
      rcases max_cases (Int.log 2 |y|) (-126) with h | h
      · rw [h.1] at hgt
        omega
      · rw [h.1] at hgt
        omega
    have hy0 : 0 < |y| := abs_pos.mpr hy
    have hge : (2 : ℚ) ^ (binade x + 1) ≤ |y| := by
      have h := (Int.zpow_le_iff_le_log (R := ℚ) (b := 2) (by norm_num) hy0).mpr hlog
      rwa [Nat.cast_ofNat] at h
    have habs2 : |y| = (2 : ℚ) ^ (binade x + 1) := le_antisymm habs hge
    have hb : binade y = binade x + 1 := by
      have hl : Int.log 2 ((2 : ℚ) ^ (binade x + 1)) = binade x + 1 := by
        have h := Int.log_zpow (R := ℚ) (b := 2) (by norm_num) (binade x + 1)
        rwa [Nat.cast_ofNat] at h
      rw [hmax, habs2, hl]
      exact max_eq_left (by omega)
    have hu : (2 : ℚ) ^ (binade x + 1) = (2 : ℚ) ^ (23 : ℕ) * ulp y := by
      unfold ulp
      rw [hb]
      have h2 : (2 : ℚ) ≠ 0 := by norm_num
      rw [← zpow_natCast, ← zpow_add₀ h2]
      congr 1
      push_cast
      ring
    rw [hu] at habs2
    rcases abs_choice y with h | h
    · refine ⟨2 ^ 23, ?_⟩
      rw [h] at habs2
      push_cast
      exact habs2
    · refine ⟨-2 ^ 23, ?_⟩
      rw [h] at habs2
      push_cast
      linarith

/-- A rounded value is an integer multiple of its own spacing. -/
theorem f32_repr (x : ℚ) : ∃ n : ℤ, f32 x = (n : ℚ) * ulp (f32 x) :=
  repr_of_abs_le x (f32 x) (rne (x / ulp x)) rfl (f32_abs_le x)

/-- An integer multiple of its own spacing is a binary32 value. -/
theorem f32_of_repr (y : ℚ) (n : ℤ) (hn : y = (n : ℚ) * ulp y) : f32 y = y := by
  have hq := ulp_pos y
  have hdiv : y / ulp y = (n : ℚ) := by
    rw [div_eq_iff (ne_of_gt hq)]
    exact hn
  unfold f32
  rw [hdiv, rne_intCast]
  exact hn.symm

/-- Rounding is idempotent: a rounded value is a binary32 value. -/
theorem f32_isF32 (x : ℚ) : IsF32 (f32 x) := by
  obtain ⟨n, hn⟩ := f32_repr x
  exact f32_of_repr (f32 x) n hn

/-- A number within one half of an integer rounds to it. -/
theorem rne_eq_of_abs_lt (x : ℚ) (m : ℤ) (h : |x - (m : ℚ)| < 1 / 2) : rne x = m := by
  have hlt := abs_lt.mp h
  by_cases hx : (m : ℚ) ≤ x
  · have hf : ⌊x⌋ = m := by
      rw [Int.floor_eq_iff]
      exact ⟨hx, by linarith [hlt.2]⟩
    unfold rne
    rw [hf]
    have h1 : x - (m : ℚ) < 1 / 2 := hlt.2
    simp only [h1, if_true]
  · have hx2 : x < (m : ℚ) := not_le.mp hx
    have hf : ⌊x⌋ = m - 1 := by
      rw [Int.floor_eq_iff]
      push_cast
      exact ⟨by linarith [hlt.1], by linarith⟩
    unfold rne
    rw [hf]
    push_cast
    have h1 : ¬ (x - ((m : ℚ) - 1) < 1 / 2) := by linarith [hlt.1]
    have h2 : 1 / 2 < x - ((m : ℚ) - 1) := by linarith [hlt.1]
    simp only [h1, h2, if_true, if_false]
    ring

/-- The binade exponent of a number between `2^e` and `2^(e+1)`, for `e ≥ -126`. -/
theorem binade_eq (x : ℚ) (e : ℤ) (he : -126 ≤ e) (h1 : (2 : ℚ) ^ e ≤ |x|)
    (h2 : |x| < (2 : ℚ) ^ (e + 1)) : binade x = e := by
  have hpos : 0 < |x| := lt_of_lt_of_le (by positivity) h1
  have ha : e ≤ Int.log 2 |x| := by
    have h := (Int.zpow_le_iff_le_log (R := ℚ) (b := 2) (x := e) (by norm_num) hpos).mp
    rw [Nat.cast_ofNat] at h
    exact h h1
  have hb : Int.log 2 |x| < e + 1 := by
    have h := (Int.lt_zpow_iff_log_lt (R := ℚ) (b := 2) (x := e + 1) (by norm_num) hpos).mp
    rw [Nat.cast_ofNat] at h
    exact h h2
  unfold binade
  rw [max_eq_left (by omega)]
  omega

/-- Evaluation of `f32` from the binade and the nearest multiple of the spacing. -/
theorem f32_eq (x : ℚ) (e m : ℤ) (he : -126 ≤ e) (h1 : (2 : ℚ) ^ e ≤ |x|)
    (h2 : |x| < (2 : ℚ) ^ (e + 1)) (hm : |x / (2 : ℚ) ^ (e - 23) - (m : ℚ)| < 1 / 2) :
    f32 x = (m : ℚ) * (2 : ℚ) ^ (e - 23) := by
  unfold f32 ulp
  rw [binade_eq x e he h1 h2, rne_eq_of_abs_lt _ m hm]

/-- A multiple of the spacing of its binade is a binary32 value. -/
theorem isF32_of (x : ℚ) (e m : ℤ) (he : -126 ≤ e) (h1 : (2 : ℚ) ^ e ≤ |x|)
    (h2 : |x| < (2 : ℚ) ^ (e + 1)) (hm : x = (m : ℚ) * (2 : ℚ) ^ (e - 23)) : IsF32 x := by
  apply f32_of_repr x m
  unfold ulp
  rw [binade_eq x e he h1 h2]
  exact hm

/-- The rounded safety-landing step from a positive binary32 thrust with `dt > 0` does not
rise, and gives a binary32 value. -/
theorem thrustStepF32_le (fused : Bool) (last dt : ℚ) (hL : IsF32 last) (hL0 : 0 < last)
    (hdt : 0 < dt) :
    thrustStepF32 fused last dt ≤ last ∧ IsF32 (thrustStepF32 fused last dt) := by
  have hcost : 0 ≤ (if fused then 10000 * dt else f32 (10000 * dt)) := by
    cases fused
    · exact f32_nonneg _ (by linarith)
    · simp only [if_true]
      linarith
  refine ⟨?_, f32_isF32 _⟩
  unfold thrustStepF32
  by_cases h : 0 < last - (if fused then 10000 * dt else f32 (10000 * dt))
  · exact f32_le_of_le _ last h (by linarith) hL
  · exact le_trans (f32_nonpos _ (not_lt.mp h)) (le_of_lt hL0)

/-! ### Ticks and runs with rounding -/

/-- A rounded tick in `SafetyLanding` whose guard holds. -/
theorem iterationF32_go (d : Library P) (fuel : ℕ) (fused : Bool) (s : Controller P)
    (e : TickInput) (hs : s.m_state = State.SafetyLanding)
    (hc : e.now - s.m_safety_start_time < 3 ∧ s.m_last_thrust > 0) :
    iterationF32 d fuel fused s e =
      some ⟨{ s with m_last_thrust := thrustStepF32 fused s.m_last_thrust e.dt },
        [thrustTwist (thrustStepF32 fused s.m_last_thrust e.dt)], false⟩ := by
  simp only [iterationF32, hs, hc, if_true]
  simp

/-- A rounded tick in `SafetyLanding` whose guard fails. -/
theorem iterationF32_stop (d : Library P) (fuel : ℕ) (fused : Bool) (s : Controller P)
    (e : TickInput) (hs : s.m_state = State.SafetyLanding)
    (hc : ¬ (e.now - s.m_safety_start_time < 3 ∧ s.m_last_thrust > 0)) :
    iterationF32 d fuel fused s e = some ⟨{ s with m_state := State.Idle }, [], false⟩ := by
  simp only [iterationF32, hs, hc, if_false]

/-- A rounded tick in `Idle`. -/
theorem iterationF32_idle (d : Library P) (fuel : ℕ) (fused : Bool) (s : Controller P)
    (e : TickInput) (hs : s.m_state = State.Idle) :
    iterationF32 d fuel fused s e = some ⟨s, [zeroTwist], false⟩ := by
  simp only [iterationF32, hs, iteration]

/-- Where the product and the difference of the safety-landing step are binary32 values as
they stand, the rounded tick is the tick of `iteration`. -/
theorem iterationF32_exact (d : Library P) (fuel : ℕ) (fused : Bool) (s : Controller P)
    (e : TickInput) (h1 : f32 (10000 * e.dt) = 10000 * e.dt)
    (h2 : f32 (s.m_last_thrust - 10000 * e.dt) = s.m_last_thrust - 10000 * e.dt) :
    iterationF32 d fuel fused s e = iteration d fuel s e := by
  have hph : s.m_state = State.Idle ∨ s.m_state = State.Automatic ∨
      s.m_state = State.TakingOff ∨ s.m_state = State.Landing ∨
      s.m_state = State.SafetyLanding := by
    cases s.m_state <;> simp
  rcases hph with hs | hs | hs | hs | hs
  · simp only [iterationF32, hs]
  · simp only [iterationF32, hs]
  · simp only [iterationF32, hs]
  · simp only [iterationF32, hs]
  · cases fused <;> simp [iterationF32, iteration, thrustStepF32, hs, h1, h2]

/-- A rounded run whose first tick returns without throwing and whose remainder returns. -/
theorem runTicksF32_cons_some (d : Library P) (fuel : ℕ) (fused : Bool) (s : Controller P)
    (e : TickInput) (es : List TickInput) (o : Outcome P) (r : Run P)
    (h : iterationF32 d fuel fused s e = some o) (ht : o.threw = false)
    (hr : runTicksF32 d fuel fused o.ctrl es = some r) :
    runTicksF32 d fuel fused s (e :: es) =
      some ⟨r.ctrl, o.published :: r.published, r.threw⟩ := by
  simp [runTicksF32, h, ht, hr]

/-- A rounded run splits at any point that is reached without throwing. -/
theorem runTicksF32_append (d : Library P) (fuel : ℕ) (fused : Bool)
    (pre post : List TickInput) :
    ∀ (s : Controller P) (r : Run P), runTicksF32 d fuel fused s pre = some r →
      r.threw = false →
      runTicksF32 d fuel fused s (pre ++ post) =
        (runTicksF32 d fuel fused r.ctrl post).map
          fun r2 => ⟨r2.ctrl, r.published ++ r2.published, r2.threw⟩ := by
  induction pre with
  | nil =>
    intro s r h _
    simp only [runTicksF32, Option.some.injEq] at h
    subst h
    simp only [List.nil_append]
    cases runTicksF32 d fuel fused s post <;> simp
  | cons e es ih =>
    intro s r h hthrew
    cases hit : iterationF32 d fuel fused s e with
    | none => simp [runTicksF32, hit] at h
    | some o =>
      by_cases ho : o.threw = true
      · simp only [runTicksF32, hit, ho, if_true, Option.some.injEq] at h
        subst h
        simp at hthrew
      · have ho2 : o.threw = false := by simpa using ho
        cases hr : runTicksF32 d fuel fused o.ctrl es with
        | none => simp [runTicksF32, hit, ho2, hr] at h
        | some r1 =>
          rw [runTicksF32_cons_some d fuel fused s e es o r1 hit ho2 hr,
            Option.some.injEq] at h
          subst h
          have hrest := ih o.ctrl r1 hr hthrew
          cases hr2 : runTicksF32 d fuel fused r1.ctrl post with
          | none =>
            rw [hr2] at hrest
            simp [runTicksF32, hit, ho2, hrest]
          | some r2 =>
            rw [hr2] at hrest
            rw [List.cons_append, runTicksF32_cons_some d fuel fused s e (es ++ post) o _ hit ho2
              hrest]
            simp

/-- From `Idle`, every rounded run returns, throws nothing and leaves the controller as it
was. -/
theorem idle_run_f32 (d : Library P) (fuel : ℕ) (fused : Bool) (es : List TickInput)
    (s : Controller P) (hs : s.m_state = State.Idle) :
    ∃ r, runTicksF32 d fuel fused s es = some r ∧ r.threw = false ∧ r.ctrl = s := by
  induction es with
  | nil => exact ⟨_, rfl, rfl, rfl⟩
  | cons e es ih =>
    obtain ⟨r, hr, ht, hc⟩ := ih
    exact ⟨_, runTicksF32_cons_some d fuel fused s e es _ r (iterationF32_idle d fuel fused s e hs)
      rfl hr, ht, hc⟩

/-- From `SafetyLanding` or `Idle`, every rounded run returns, throws nothing, ends in one of
the two phases and keeps `m_safety_start_time`. -/
theorem safety_run_f32 (d : Library P) (fuel : ℕ) (fused : Bool) (es : List TickInput) :
    ∀ s : Controller P, s.m_state = State.SafetyLanding ∨ s.m_state = State.Idle →
      ∃ r, runTicksF32 d fuel fused s es = some r ∧ r.threw = false ∧
        (r.ctrl.m_state = State.SafetyLanding ∨ r.ctrl.m_state = State.Idle) ∧
        r.ctrl.m_safety_start_time = s.m_safety_start_time := by
  induction es with
  | nil => exact fun s hs => ⟨_, rfl, rfl, hs, rfl⟩
  | cons e es ih =>
    intro s hs
    rcases hs with hs | hs
    · by_cases hc : e.now - s.m_safety_start_time < 3 ∧ s.m_last_thrust > 0
      · obtain ⟨r, hr, ht, hst, hsafe⟩ := ih
          { s with m_last_thrust := thrustStepF32 fused s.m_last_thrust e.dt } (Or.inl hs)
        exact ⟨_, runTicksF32_cons_some d fuel fused s e es _ r
          (iterationF32_go d fuel fused s e hs hc) rfl hr, ht, hst, hsafe⟩
      · obtain ⟨r, hr, ht, hst, hsafe⟩ := ih { s with m_state := State.Idle } (Or.inr rfl)
        exact ⟨_, runTicksF32_cons_some d fuel fused s e es _ r
          (iterationF32_stop d fuel fused s e hs hc) rfl hr, ht, hst, hsafe⟩
    · obtain ⟨r, hr, ht, hc⟩ := idle_run_f32 d fuel fused (e :: es) s hs
      exact ⟨r, hr, ht, Or.inr (by rw [hc]; exact hs), by rw [hc]⟩

/-- A rounded tick at which the safety-landing guard fails ends the run in `Idle`, whatever
follows. -/
theorem safety_stop_idle_f32 (d : Library P) (fuel : ℕ) (fused : Bool) (s : Controller P)
    (e : TickInput) (post : List TickInput)
    (hs : s.m_state = State.SafetyLanding ∨ s.m_state = State.Idle)
    (hc : e.now - s.m_safety_start_time ≥ 3 ∨ s.m_last_thrust ≤ 0) :
    ∃ r, runTicksF32 d fuel fused s (e :: post) = some r ∧ r.ctrl.m_state = State.Idle := by
  rcases hs with hs | hs
  · have hc2 : ¬ (e.now - s.m_safety_start_time < 3 ∧ s.m_last_thrust > 0) := by
      rintro ⟨h1, h2⟩
      rcases hc with h | h <;> linarith
    obtain ⟨r, hr, _, hctrl⟩ := idle_run_f32 d fuel fused post { s with m_state := State.Idle } rfl
    exact ⟨_, runTicksF32_cons_some d fuel fused s e post _ r
      (iterationF32_stop d fuel fused s e hs hc2) rfl hr, by rw [hctrl]⟩
  · obtain ⟨r, hr, _, hctrl⟩ := idle_run_f32 d fuel fused (e :: post) s hs
    exact ⟨r, hr, by rw [hctrl]; exact hs⟩

/-- The rounded thrusts published while the phase stays `SafetyLanding` never rise, starting
from the last thrust at the start of the run, when that is a binary32 value and every `dt`
is positive. -/
theorem safety_thrusts_chain_f32 (d : Library P) (fuel : ℕ) (fused : Bool)
    (es : List TickInput) :
    ∀ s : Controller P, IsF32 s.m_last_thrust → (∀ e ∈ es, 0 < e.dt) →
      List.Chain (fun a b : ℚ => b ≤ a) s.m_last_thrust
        (thrustsWhileF32 d fuel fused State.SafetyLanding s es) := by
  induction es with
  | nil => exact fun s _ _ => List.Chain.nil
  | cons e es ih =>
    intro s hL hdt
    by_cases hs : s.m_state = State.SafetyLanding
    · have hpos : 0 < e.dt := hdt e (List.mem_cons_self _ _)
      have hrest : ∀ e1 ∈ es, 0 < e1.dt := fun e1 h1 => hdt e1 (List.mem_cons_of_mem _ h1)
      by_cases hc : e.now - s.m_safety_start_time < 3 ∧ s.m_last_thrust > 0
      · have hstep := thrustStepF32_le fused s.m_last_thrust e.dt hL hc.2 hpos
        have h1 := ih
          { s with m_state := State.SafetyLanding,
                   m_last_thrust := thrustStepF32 fused s.m_last_thrust e.dt }
          hstep.2 hrest
        simp only [thrustsWhileF32, hs, if_true, iterationF32_go d fuel fused s e hs hc, thrusts,
          thrustTwist, List.map_cons, List.map_nil, List.singleton_append, Bool.false_eq_true,
          if_false]
        exact List.Chain.cons hstep.1 h1
      · have h1 := ih { s with m_state := State.Idle } hL hrest
        simp only [thrustsWhileF32, hs, if_true, iterationF32_stop d fuel fused s e hs hc,
          thrusts, List.map_nil, List.nil_append, Bool.false_eq_true, if_false]
        exact h1
    · simp only [thrustsWhileF32, hs, if_false]
      exact List.Chain.nil

/-- C11 as stated fails: a tick in `TakingOff` whose transform lookup finds no pose raises the
lookup's exception and publishes no command, neither the zero command nor a repetition of
an earlier one. -/
theorem pose_unavailable_counterexample :
    (iteration specLibrary 0 (controllerIn State.TakingOff 0)
        { tickAt 1 (1 / 50) 0 with transform := none }).map
        (fun o => (o.threw, o.published)) = some (true, []) := by
  simp [iteration, controllerIn, freshController, Controller.init, tickAt]

/-- C11 (amended). A tick whose transform lookup finds no pose, taken in `TakingOff`, in
`Landing`, or in `Automatic` with a goal at most 1.0 s old, ends by raising the lookup's
exception: it publishes no command, updates no PID, keeps the phase and leaves every member
of the controller as it was, except that a `Landing` tick has already set the target height
to 0.05. -/
theorem pose_unavailable (d : Library P) (fuel : ℕ) (s : Controller P) (e : TickInput)
    (ht : e.transform = none) :
    (s.m_state = State.TakingOff → iteration d fuel s e = some ⟨s, [], true⟩) ∧
      (s.m_state = State.Landing →
        iteration d fuel s e = some ⟨{ s with m_target_height := 5 / 100 }, [], true⟩) ∧
      (s.m_state = State.Automatic → e.now - s.m_last_marker ≤ 1 →
        iteration d fuel s e = some ⟨s, [], true⟩) := by
  refine ⟨fun hs => ?_, fun hs => ?_, fun hs hg => ?_⟩
  · simp [iteration, hs, ht]
  · simp [iteration, hs, ht]
  · have hg1 : ¬ (1 < e.now - s.m_last_marker) := not_lt.mpr hg
    simp [iteration, hs, ht, automaticCase, hg1]

/-- Witness for C11 (amended): a landing controller ticked while no pose is available. -/
theorem pose_unavailable_witness :
    ({ tickAt 1 (1 / 50) 0 with transform := none } : TickInput).transform = none ∧
      (controllerIn State.Landing 50000).m_state = State.Landing ∧
      iteration specLibrary 0 (controllerIn State.Landing 50000)
          { tickAt 1 (1 / 50) 0 with transform := none } =
        some ⟨{ controllerIn State.Landing 50000 with m_target_height := 5 / 100 }, [], true⟩ :=
  ⟨rfl, rfl, (pose_unavailable specLibrary 0 (controllerIn State.Landing 50000)
    { tickAt 1 (1 / 50) 0 with transform := none } rfl).2.1 rfl⟩

/-! ## The Automatic control law -/

/-- C12 as stated fails: in `Automatic` with a fresh goal whose position has z = 0 and the
vehicle at altitude 0.7, the published linear z is 54000, the hover bias plus the z PID
applied to the goal z, whereas the z PID applied to the vehicle altitude gives 39000; and
with no pose available the tick publishes nothing. -/
theorem automatic_vertical_counterexample :
    (iteration specLibrary 0 (goalChanged (controllerIn State.Automatic 0) originPose 10)
        (tickAt 10 (1 / 50) (7 / 10))).map (fun o => thrusts o.published) = some [54000] ∧
      39000 + (specLibrary.pidUpdate
        (goalChanged (controllerIn State.Automatic 0) originPose 10).m_pidZ 10 (7 / 10)
        (7 / 10)).1 = 39000 ∧
      (iteration specLibrary 0 (goalChanged (controllerIn State.Automatic 0) originPose 10)
        { tickAt 10 (1 / 50) (7 / 10) with transform := none }).map
        (fun o => o.published) = some [] := by
  have hfar : (PID.update (pidOf 5000 6000 3500 15000) 10 (7 / 10) 0).1 = 15000 := by
    simp only [PID.update, PID.dt, pidOf, clamp]
    norm_num
  have hnear : (PID.update (pidOf 5000 6000 3500 15000) 10 (7 / 10) (7 / 10)).1 = 0 := by
    simp only [PID.update, PID.dt, pidOf, clamp]
    norm_num
  refine ⟨?_, ?_, ?_⟩
  · rw [automatic_tick_eq specLibrary 0 (goalChanged (controllerIn State.Automatic 0) originPose 10)
      (tickAt 10 (1 / 50) (7 / 10)) ⟨0, 0, 7 / 10⟩ rfl rfl (by norm_num [tickAt, goalChanged])]
    show some [39000 + (PID.update (pidOf 5000 6000 3500 15000) 10 (7 / 10) 0).1] = some [54000]
    rw [hfar]
    norm_num
  · show 39000 + (PID.update (pidOf 5000 6000 3500 15000) 10 (7 / 10) (7 / 10)).1 = 39000
    rw [hnear]
    norm_num
  · have hg : ¬ ((1 : ℚ) < 0) := by norm_num
    simp [iteration, automaticCase, goalChanged, controllerIn, tickAt, hg]

/-- C12 (amended). In `Automatic`, a tick with a goal at most 1.0 s old and an available
vehicle pose publishes exactly one command; its linear z is 39000 plus the output of the z
PID called with 0.7 and the z of the cached goal position (the vehicle pose looked up in the
tick does not enter), its angular z is the output of the yaw PID called with 0 and the yaw
of the goal orientation; `m_last_thrust` afterwards is the published linear z and the phase
stays `Automatic`. -/
theorem automatic_vertical (d : Library P) (fuel : ℕ) (s : Controller P) (e : TickInput)
    (tf : Vector3) (hs : s.m_state = State.Automatic) (ht : e.transform = some tf)
    (hg : e.now - s.m_last_marker ≤ 1) :
    ∃ o c, iteration d fuel s e = some o ∧ o.threw = false ∧ o.published = [c] ∧
      c.linear.z = 39000 + (d.pidUpdate s.m_pidZ e.now (7 / 10) s.m_goal.position.z).1 ∧
      c.angular.z = (d.pidUpdate s.m_pidYaw e.now 0 (d.getYaw s.m_goal.orientation)).1 ∧
      o.ctrl.m_last_thrust = c.linear.z ∧
      o.ctrl.m_state = State.Automatic := by
  exact ⟨_, _, automatic_tick_eq d fuel s e tf hs ht hg, rfl, rfl, rfl, rfl, rfl, hs⟩

/-- Witness for C12 (amended): an `Automatic` controller whose goal was refreshed at clock 10,
ticked at clock 10 with the vehicle at altitude 0.7. -/
theorem automatic_vertical_witness :
    (goalChanged (controllerIn State.Automatic 0) originPose 10).m_state = State.Automatic ∧
      (tickAt 10 (1 / 50) (7 / 10)).transform = some ⟨0, 0, 7 / 10⟩ ∧
      (tickAt 10 (1 / 50) (7 / 10)).now -
        (goalChanged (controllerIn State.Automatic 0) originPose 10).m_last_marker ≤ 1 ∧
      ∃ o c, iteration specLibrary 0 (goalChanged (controllerIn State.Automatic 0) originPose 10)
          (tickAt 10 (1 / 50) (7 / 10)) = some o ∧ o.threw = false ∧ o.published = [c] ∧
        c.linear.z = 39000 + (specLibrary.pidUpdate
          (goalChanged (controllerIn State.Automatic 0) originPose 10).m_pidZ
          (tickAt 10 (1 / 50) (7 / 10)).now (7 / 10)
          (goalChanged (controllerIn State.Automatic 0) originPose 10).m_goal.position.z).1 ∧
        c.angular.z = (specLibrary.pidUpdate
          (goalChanged (controllerIn State.Automatic 0) originPose 10).m_pidYaw
          (tickAt 10 (1 / 50) (7 / 10)).now 0
          (specLibrary.getYaw
            (goalChanged (controllerIn State.Automatic 0) originPose 10).m_goal.orientation)).1 ∧
        o.ctrl.m_last_thrust = c.linear.z ∧
        o.ctrl.m_state = State.Automatic :=
  have hg : (tickAt 10 (1 / 50) (7 / 10)).now -
      (goalChanged (controllerIn State.Automatic 0) originPose 10).m_last_marker ≤ 1 := by
    norm_num [tickAt, goalChanged]
  ⟨rfl, rfl, hg, automatic_vertical specLibrary 0
    (goalChanged (controllerIn State.Automatic 0) originPose 10) (tickAt 10 (1 / 50) (7 / 10))
    ⟨0, 0, 7 / 10⟩ rfl rfl hg⟩

/-- The dead-band condition of `case Automatic` holds for no offset. -/
theorem dead_band_cond (v : ℚ) : ¬ (v > 2 / 10 ∧ v < -(2 / 10)) := by
  rintro ⟨h1, h2⟩
  linarith

/-- The x/y selection always takes the `update` branch. -/
theorem planarUpdate_eq (d : Library P) (pid : P) (now v : ℚ) :
    planarUpdate d pid now v = d.pidUpdate pid now 0 v := by
  simp only [planarUpdate, dead_band_cond v, if_false]

/-- The body of `case Automatic` does not depend on `updateWithoutI`. -/
theorem automaticCase_withoutI (d : Library P) (w : P → ℚ → ℚ → ℚ → ℚ × P) (s : Controller P)
    (now : ℚ) (transform : Option Vector3) (out : List Twist) :
    automaticCase { d with pidUpdateWithoutI := w } s now transform out =
      automaticCase d s now transform out := by
  simp only [automaticCase, planarUpdate_eq]

/-- C13 (dead-band branch is dead). For every goal offset `v` the condition `v > 0.2 and
v < -0.2` is false, so the x/y selection is the integral-accumulating `update(0, v)`; in
every run of the body of `case Automatic` that reaches the control law, the published x
command is `pidX.update(0, goal x)` and the y command `pidY.update(0, goal y)`, with the
PID states those calls leave; and no tick depends on `updateWithoutI`: replacing it by any
other function `w` changes nothing, so it is never called. -/
theorem dead_band_dead (d : Library P) (fuel : ℕ) (s : Controller P) (e : TickInput)
    (w : P → ℚ → ℚ → ℚ → ℚ × P) (pid : P) (now v : ℚ) :
    ¬ (v > 2 / 10 ∧ v < -(2 / 10)) ∧
      planarUpdate d pid now v = d.pidUpdate pid now 0 v ∧
      (∀ (tf : Vector3) (out : List Twist), now - s.m_last_marker ≤ 1 →
        ∃ c, (automaticCase d s now (some tf) out).published = out ++ [c] ∧
          c.linear.x = (d.pidUpdate s.m_pidX now 0 s.m_goal.position.x).1 ∧
          c.linear.y = (d.pidUpdate s.m_pidY now 0 s.m_goal.position.y).1 ∧
          (automaticCase d s now (some tf) out).ctrl.m_pidX =
            (d.pidUpdate s.m_pidX now 0 s.m_goal.position.x).2 ∧
          (automaticCase d s now (some tf) out).ctrl.m_pidY =
            (d.pidUpdate s.m_pidY now 0 s.m_goal.position.y).2) ∧
      iteration { d with pidUpdateWithoutI := w } fuel s e = iteration d fuel s e := by
  refine ⟨dead_band_cond v, planarUpdate_eq d pid now v, fun tf out hg => ?_, ?_⟩
  · have hg1 : ¬ (now - s.m_last_marker > 1) := not_lt.mpr hg
    simp only [automaticCase, hg1, if_false, planarUpdate_eq]
    by_cases hl : s.m_state = State.Landing
    · simp [hl]
    · simp [hl]
  · simp only [iteration, automaticCase_withoutI, pidReset]

/-- Witness for C13: the offsets 0.3 and -0.3, and an `Automatic` tick with a fresh goal. -/
theorem dead_band_dead_witness :
    ¬ ((3 / 10 : ℚ) > 2 / 10 ∧ (3 / 10 : ℚ) < -(2 / 10)) ∧
      planarUpdate specLibrary (pidOf 40 20 2 30) 10 (-(3 / 10)) =
        specLibrary.pidUpdate (pidOf 40 20 2 30) 10 0 (-(3 / 10)) ∧
      iteration { specLibrary with pidUpdateWithoutI := fun p _ _ _ => (0, p) } 0
          (goalChanged (controllerIn State.Automatic 0) originPose 10)
          (tickAt 10 (1 / 50) (7 / 10)) =
        iteration specLibrary 0 (goalChanged (controllerIn State.Automatic 0) originPose 10)
          (tickAt 10 (1 / 50) (7 / 10)) :=
  ⟨(dead_band_dead specLibrary 0 (goalChanged (controllerIn State.Automatic 0) originPose 10)
      (tickAt 10 (1 / 50) (7 / 10)) (fun p _ _ _ => (0, p)) (pidOf 40 20 2 30) 10 (3 / 10)).1,
    (dead_band_dead specLibrary 0 (goalChanged (controllerIn State.Automatic 0) originPose 10)
      (tickAt 10 (1 / 50) (7 / 10)) (fun p _ _ _ => (0, p)) (pidOf 40 20 2 30) 10
      (-(3 / 10))).2.1,
    (dead_band_dead specLibrary 0 (goalChanged (controllerIn State.Automatic 0) originPose 10)
      (tickAt 10 (1 / 50) (7 / 10)) (fun p _ _ _ => (0, p)) (pidOf 40 20 2 30) 10
      (3 / 10)).2.2.2⟩

/-! ## The landing ramp -/

/-- The ramp loop returns, at a clock at least 3 s after its start, once every pass sleeps
at least `δ` and the fuel covers the `n` passes that can still be needed. -/
theorem rampLoop_returns (slept : ℕ → ℚ) (start δ : ℚ) (hsl : ∀ k, δ ≤ slept k) :
    ∀ (n fuel k : ℕ) (t last : ℚ) (out : List Twist), 3 - (t - start) ≤ δ * n → n + 1 ≤ fuel →
      ∃ t2 last2 out2, rampLoop slept start fuel k t last out = some (t2, last2, out2) ∧
        3 ≤ t2 - start := by
  intro n
  induction n with
  | zero =>
    intro fuel k t last out hrem hfuel
    obtain ⟨f, rfl⟩ : ∃ f, fuel = f + 1 := ⟨fuel - 1, by omega⟩
    have hc : ¬ (t - start < 3) := by
      simp only [Nat.cast_zero, mul_zero] at hrem
      linarith
    exact ⟨t, last, out, by simp only [rampLoop, hc, if_false], not_lt.mp hc⟩
  | succ n ih =>
    intro fuel k t last out hrem hfuel
    obtain ⟨f, rfl⟩ : ∃ f, fuel = f + 1 := ⟨fuel - 1, by omega⟩
    by_cases hc : t - start < 3
    · simp only [rampLoop, hc, if_true]
      refine ih f (k + 1) (t + slept k) (last - 2000) _ ?_ (by omega)
      have h1 := hsl k
      push_cast at hrem
      linarith
    · exact ⟨t, last, out, by simp only [rampLoop, hc, if_false], not_lt.mp hc⟩

/-- With passes of exactly 0.1 s, a ramp that has `m` tenths of a second left makes `m` more
passes: it returns at `start + 3` with the last thrust lowered by `2000 * m`, having
published the thrusts `last - 2000`, `last - 4000`, ... -/
theorem rampLoop_tenth (slept : ℕ → ℚ) (start : ℚ) (hsl : ∀ k, slept k = 1 / 10) :
    ∀ (m fuel k : ℕ) (t last : ℚ) (out : List Twist), t - start = 3 - (m : ℚ) / 10 →
      m + 1 ≤ fuel →
      rampLoop slept start fuel k t last out =
        some (start + 3, last - 2000 * (m : ℚ),
          out ++ (List.range m).map fun (i : ℕ) => thrustTwist (last - 2000 * ((i : ℚ) + 1))) := by
  intro m
  induction m with
  | zero =>
    intro fuel k t last out ht hfuel
    obtain ⟨f, rfl⟩ : ∃ f, fuel = f + 1 := ⟨fuel - 1, by omega⟩
    simp only [Nat.cast_zero, zero_div, sub_zero] at ht
    have hc : ¬ (t - start < 3) := by linarith
    have ht2 : start + 3 = t := by linarith
    simp only [rampLoop, hc, if_false, ht2, Nat.cast_zero, mul_zero, sub_zero, List.range_zero,
      List.map_nil, List.append_nil]
  | succ m ih =>
    intro fuel k t last out ht hfuel
    obtain ⟨f, rfl⟩ : ∃ f, fuel = f + 1 := ⟨fuel - 1, by omega⟩
    push_cast at ht
    have hm : (0 : ℚ) ≤ (m : ℚ) := Nat.cast_nonneg m
    have hc : t - start < 3 := by linarith
    simp only [rampLoop, hc, if_true]
    rw [ih f (k + 1) (t + slept k) (last - 2000) _ (by rw [hsl k]; linarith) (by omega)]
    have hlist : (List.range (m + 1)).map (fun (i : ℕ) => thrustTwist (last - 2000 * ((i : ℚ) + 1))) =
        thrustTwist (last - 2000) ::
          (List.range m).map (fun (i : ℕ) => thrustTwist (last - 2000 - 2000 * ((i : ℚ) + 1))) := by
      rw [List.range_succ_eq_map, List.map_cons, List.map_map]
      congr 1
      · norm_num
      · apply List.map_congr_left
        intro i _
        simp only [Function.comp, Nat.succ_eq_add_one, Nat.cast_add, Nat.cast_one]
        congr 1
        ring
    rw [hlist]
    simp only [List.append_assoc, List.singleton_append, Nat.cast_add, Nat.cast_one]
    congr 2
    congr 1
    ring

/-- The body of `case Automatic` only appends to the messages already published. -/
theorem automaticCase_published (d : Library P) (s : Controller P) (now : ℚ)
    (transform : Option Vector3) (out : List Twist) :
    ∃ rest, (automaticCase d s now transform out).published = out ++ rest := by
  unfold automaticCase
  by_cases hw : now - s.m_last_marker > 1
  · exact ⟨[], by simp [hw]⟩
  · cases transform with
    | none => exact ⟨[], by simp [hw]⟩
    | some tf => exact ⟨_, by rw [if_neg hw]⟩

/-- C14 (landing descent ramp). In `Landing` with last thrust `L`, at an altitude `≤ 0.35`
and with a clock that advances by exactly 0.1 s per ramp pass, the ramp loop returns at
`now + 3` having published exactly 30 commands, the k-th (k = 1..30) with linear x = 0,
linear y = 0 and linear z = `L - 2000*k`, and leaves the last thrust at `L - 60000`; the
tick publishes these 30 commands and then the zero command (what follows is the body of
`case Automatic`). The thrust is not bounded below by 0: for `L < 60000` a ramp command
carries a negative thrust. -/
theorem descent_ramp_commands (d : Library P) (fuel : ℕ) (s : Controller P) (e : TickInput)
    (tf : Vector3) (hs : s.m_state = State.Landing) (ht : e.transform = some tf)
    (hz : tf.z ≤ 35 / 100) (hsl : ∀ k, e.slept k = 1 / 10) (hf : 31 ≤ fuel) :
    rampLoop e.slept e.now fuel 0 e.now s.m_last_thrust [] =
        some (e.now + 3, s.m_last_thrust - 60000, rampCommands s.m_last_thrust 30) ∧
      (rampCommands s.m_last_thrust 30).length = 30 ∧
      (∀ k : ℕ, 1 ≤ k → k ≤ 30 →
        (rampCommands s.m_last_thrust 30)[k - 1]? =
          some ⟨⟨0, 0, s.m_last_thrust - 2000 * (k : ℚ)⟩, ⟨0, 0, 0⟩⟩) ∧
      iteration d fuel s e =
        some (automaticCase d
          { s with m_target_height := 5 / 100, m_last_thrust := s.m_last_thrust - 60000,
                   m_state := State.Idle }
          (e.now + 3) (some tf)
          (rampCommands s.m_last_thrust 30 ++ [⟨⟨0, 0, 0⟩, ⟨0, 0, 0⟩⟩])) ∧
      (∃ o rest, iteration d fuel s e = some o ∧
        o.published = rampCommands s.m_last_thrust 30 ++ ⟨⟨0, 0, 0⟩, ⟨0, 0, 0⟩⟩ :: rest) ∧
      (s.m_last_thrust < 60000 → ∃ c ∈ rampCommands s.m_last_thrust 30, c.linear.z < 0) := by
  have hramp : rampLoop e.slept e.now fuel 0 e.now s.m_last_thrust [] =
      some (e.now + 3, s.m_last_thrust - 60000, rampCommands s.m_last_thrust 30) := by
    have h := rampLoop_tenth e.slept e.now hsl 30 fuel 0 e.now s.m_last_thrust []
      (by norm_num) (by omega)
    rw [h]
    simp only [rampCommands, thrustTwist, List.nil_append]
    norm_num
  have hit : iteration d fuel s e =
      some (automaticCase d
        { s with m_target_height := 5 / 100, m_last_thrust := s.m_last_thrust - 60000,
                 m_state := State.Idle }
        (e.now + 3) (some tf)
        (rampCommands s.m_last_thrust 30 ++ [⟨⟨0, 0, 0⟩, ⟨0, 0, 0⟩⟩])) := by
    simp only [iteration, hs, ht, hz, if_true, hramp, zeroTwist]
  refine ⟨hramp, by simp [rampCommands], fun k hk1 hk30 => ?_, hit, ?_, fun hL => ?_⟩
  · obtain ⟨i, rfl⟩ : ∃ i, k = i + 1 := ⟨k - 1, by omega⟩
    have hi : i < 30 := by omega
    simp only [rampCommands, Nat.add_sub_cancel, List.getElem?_map, List.getElem?_range hi,
      Option.map_some', Nat.cast_add, Nat.cast_one]
  · obtain ⟨rest, hrest⟩ := automaticCase_published d
      { s with m_target_height := 5 / 100, m_last_thrust := s.m_last_thrust - 60000,
               m_state := State.Idle }
      (e.now + 3) (some tf) (rampCommands s.m_last_thrust 30 ++ [⟨⟨0, 0, 0⟩, ⟨0, 0, 0⟩⟩])
    refine ⟨_, rest, hit, ?_⟩
    rw [hrest]
    simp
  · refine ⟨⟨⟨0, 0, s.m_last_thrust - 2000 * (((29 : ℕ) : ℚ) + 1)⟩, ⟨0, 0, 0⟩⟩, ?_, ?_⟩
    · simp only [rampCommands, List.mem_map, List.mem_range]
      exact ⟨29, by omega, rfl⟩
    · show s.m_last_thrust - 2000 * (((29 : ℕ) : ℚ) + 1) < 0
      norm_num
      linarith

/-- Witness for C14: a landing controller with last thrust 50000 at altitude 0.3, the ramp
passes taking 0.1 s each. -/
theorem descent_ramp_commands_witness :
    (controllerIn State.Landing 50000).m_state = State.Landing ∧
      (tickAt 10 (1 / 50) (3 / 10)).transform = some ⟨0, 0, 3 / 10⟩ ∧
      (⟨0, 0, 3 / 10⟩ : Vector3).z ≤ 35 / 100 ∧
      (∀ k, (tickAt 10 (1 / 50) (3 / 10)).slept k = 1 / 10) ∧
      rampLoop (tickAt 10 (1 / 50) (3 / 10)).slept (tickAt 10 (1 / 50) (3 / 10)).now 31 0
          (tickAt 10 (1 / 50) (3 / 10)).now (controllerIn State.Landing 50000).m_last_thrust [] =
        some ((tickAt 10 (1 / 50) (3 / 10)).now + 3,
          (controllerIn State.Landing 50000).m_last_thrust - 60000,
          rampCommands (controllerIn State.Landing 50000).m_last_thrust 30) :=
  have hz : (⟨0, 0, 3 / 10⟩ : Vector3).z ≤ 35 / 100 := by norm_num
  ⟨rfl, rfl, hz, fun _ => rfl,
    (descent_ramp_commands specLibrary 31 (controllerIn State.Landing 50000) (tickAt 10 (1 / 50) (3 / 10))
      ⟨0, 0, 3 / 10⟩ rfl rfl hz (fun _ => rfl) (le_refl 31)).1⟩

/-- The start of a landing ramp is covered by `⌈3/δ⌉₊` passes of at least `δ > 0` each. -/
theorem ramp_budget (δ : ℚ) (hδ : 0 < δ) (now : ℚ) :
    3 - (now - now) ≤ δ * ((⌈3 / δ⌉₊ : ℕ) : ℚ) := by
  have h1 : 3 / δ ≤ ((⌈3 / δ⌉₊ : ℕ) : ℚ) := Nat.le_ceil _
  rw [div_le_iff₀ hδ] at h1
  linarith

/-- C17 (what follows the landing ramp). In `Landing` at an altitude `≤ 0.35`, when every ramp
pass sleeps at least `δ > 0` and the fuel covers `⌈3/δ⌉ + 1` evaluations of the loop
condition, the ramp returns at a clock `t` at least 3 s after the tick's start, with last
thrust `last` and ramp commands `out`, and the tick continues into `case Automatic` with the
phase already `Idle`: if the goal is then older than 1.0 s the tick ends in `SafetyLanding`
with `m_safety_start_time = t`, having published the ramp commands and the zero command and
nothing more; otherwise it publishes one further command, that of the Automatic control law
with target height 0.7 (linear z = 39000 + pidZ.update(0.7, goal z)), stores that linear z
in `m_last_thrust`, and ends in `Idle`. -/
theorem after_landing_ramp (d : Library P) (fuel : ℕ) (s : Controller P) (e : TickInput)
    (tf : Vector3) (δ : ℚ) (hs : s.m_state = State.Landing) (ht : e.transform = some tf)
    (hz : tf.z ≤ 35 / 100) (hδ : 0 < δ) (hsl : ∀ k, δ ≤ e.slept k)
    (hf : ⌈3 / δ⌉₊ + 1 ≤ fuel) :
    ∃ t last out, rampLoop e.slept e.now fuel 0 e.now s.m_last_thrust [] = some (t, last, out) ∧
      3 ≤ t - e.now ∧
      (t - s.m_last_marker > 1 →
        iteration d fuel s e =
          some ⟨{ s with m_target_height := 5 / 100, m_last_thrust := last,
                         m_state := State.SafetyLanding, m_safety_start_time := t },
            out ++ [⟨⟨0, 0, 0⟩, ⟨0, 0, 0⟩⟩], false⟩) ∧
      (t - s.m_last_marker ≤ 1 →
        iteration d fuel s e =
            some ⟨{ s with
                      m_state := State.Idle
                      m_target_height := 7 / 10
                      m_pidX := (specAutomaticLaw d (7 / 10) s.pids s.m_goal t).2.1.x
                      m_pidY := (specAutomaticLaw d (7 / 10) s.pids s.m_goal t).2.1.y
                      m_pidZ := (specAutomaticLaw d (7 / 10) s.pids s.m_goal t).2.1.z
                      m_pidYaw := (specAutomaticLaw d (7 / 10) s.pids s.m_goal t).2.1.yaw
                      m_last_thrust :=
                        39000 + (d.pidUpdate s.m_pidZ t (7 / 10) s.m_goal.position.z).1 },
              out ++ [⟨⟨0, 0, 0⟩, ⟨0, 0, 0⟩⟩, (specAutomaticLaw d (7 / 10) s.pids s.m_goal t).1],
              false⟩ ∧
          (specAutomaticLaw d (7 / 10) s.pids s.m_goal t).1.linear.z =
            39000 + (d.pidUpdate s.m_pidZ t (7 / 10) s.m_goal.position.z).1) := by
  obtain ⟨t, last, out, hramp, h3⟩ := rampLoop_returns e.slept e.now δ hsl ⌈3 / δ⌉₊ fuel 0 e.now
    s.m_last_thrust [] (ramp_budget δ hδ e.now) hf
  refine ⟨t, last, out, hramp, h3, fun hstale => ?_, fun hfresh => ⟨?_, rfl⟩⟩
  · simp [iteration, hs, ht, hz, hramp, automaticCase, hstale, zeroTwist]
  · have hfresh1 : ¬ (1 < t - s.m_last_marker) := not_lt.mpr hfresh
    simp [iteration, hs, ht, hz, hramp, automaticCase, hfresh1, zeroTwist, specAutomaticLaw,
      planarUpdate, Controller.pids]

/-- Witness for C17: a landing controller with last thrust 50000 whose goal was refreshed at
clock 10, ticked at clock 10 at altitude 0.3 with ramp passes of 0.1 s: the tick ends in
`SafetyLanding`. -/
theorem after_landing_ramp_witness :
    (goalChanged (controllerIn State.Landing 50000) originPose 10).m_state = State.Landing ∧
      (tickAt 10 (1 / 50) (3 / 10)).transform = some ⟨0, 0, 3 / 10⟩ ∧
      (⟨0, 0, 3 / 10⟩ : Vector3).z ≤ 35 / 100 ∧
      (0 : ℚ) < 1 / 10 ∧
      (∀ k, (1 / 10 : ℚ) ≤ (tickAt 10 (1 / 50) (3 / 10)).slept k) ∧
      ⌈(3 : ℚ) / (1 / 10)⌉₊ + 1 ≤ 31 ∧
      ∃ o, iteration specLibrary 31 (goalChanged (controllerIn State.Landing 50000) originPose 10)
          (tickAt 10 (1 / 50) (3 / 10)) = some o ∧ o.ctrl.m_state = State.SafetyLanding := by
  have hz : (⟨0, 0, 3 / 10⟩ : Vector3).z ≤ 35 / 100 := by norm_num
  have hδ : (0 : ℚ) < 1 / 10 := by norm_num
  have hsl : ∀ k, (1 / 10 : ℚ) ≤ (tickAt 10 (1 / 50) (3 / 10)).slept k := fun _ => le_refl _
  have hf : ⌈(3 : ℚ) / (1 / 10)⌉₊ + 1 ≤ 31 := by
    have h30 : (3 : ℚ) / (1 / 10) = ((30 : ℕ) : ℚ) := by norm_num
    rw [h30, Nat.ceil_natCast]
  obtain ⟨t, last, out, _, h3, hstale, _⟩ := after_landing_ramp specLibrary 31
    (goalChanged (controllerIn State.Landing 50000) originPose 10) (tickAt 10 (1 / 50) (3 / 10))
    ⟨0, 0, 3 / 10⟩ (1 / 10) rfl rfl hz hδ hsl hf
  have hnow : (tickAt 10 (1 / 50) (3 / 10)).now = 10 := rfl
  have hmark : (goalChanged (controllerIn State.Landing 50000) originPose 10).m_last_marker =
      10 := rfl
  rw [hnow] at h3
  exact ⟨rfl, rfl, hz, hδ, hsl, hf, _, hstale (by rw [hmark]; linarith), rfl⟩

/-! ## The transition relation of the tick -/

/-- The body of `case Automatic` keeps the phase or enters `SafetyLanding`. -/
theorem automaticCase_state (d : Library P) (s : Controller P) (now : ℚ)
    (transform : Option Vector3) (out : List Twist) :
    (automaticCase d s now transform out).ctrl.m_state = s.m_state ∨
      (automaticCase d s now transform out).ctrl.m_state = State.SafetyLanding := by
  unfold automaticCase
  by_cases hw : now - s.m_last_marker > 1
  · exact Or.inr (by simp [hw])
  · cases transform with
    | none => exact Or.inl (by simp [hw])
    | some tf =>
      refine Or.inl ?_
      rw [if_neg hw]
      by_cases hl : s.m_state = State.Landing
      · simp [hl]
      · simp [hl]

/-- Every tick returns when each ramp pass sleeps at least `δ > 0` and the fuel covers
`⌈3/δ⌉ + 1` evaluations of the ramp loop condition. -/
theorem iteration_returns (d : Library P) (fuel : ℕ) (s : Controller P) (e : TickInput)
    (δ : ℚ) (hδ : 0 < δ) (hsl : ∀ k, δ ≤ e.slept k) (hf : ⌈3 / δ⌉₊ + 1 ≤ fuel) :
    ∃ o, iteration d fuel s e = some o := by
  unfold iteration
  cases hs : s.m_state with
  | Idle => exact ⟨_, rfl⟩
  | Automatic => exact ⟨_, rfl⟩
  | TakingOff =>
    cases ht : e.transform with
    | none => exact ⟨_, rfl⟩
    | some tf =>
      by_cases hz : tf.z > s.m_startZ + 5 / 100
      · simp only [if_pos hz]
        exact ⟨_, rfl⟩
      · simp only [if_neg hz]
        exact ⟨_, rfl⟩
  | Landing =>
    cases ht : e.transform with
    | none => exact ⟨_, rfl⟩
    | some tf =>
      by_cases hz : tf.z ≤ 35 / 100
      · obtain ⟨t, last, out, hramp, _⟩ := rampLoop_returns e.slept e.now δ hsl ⌈3 / δ⌉₊ fuel 0
          e.now s.m_last_thrust [] (ramp_budget δ hδ e.now) hf
        simp only [if_pos hz, hramp]
        exact ⟨_, rfl⟩
      · simp only [if_neg hz]
        exact ⟨_, rfl⟩
  | SafetyLanding =>
    by_cases hc : e.now - s.m_safety_start_time < 3 ∧ s.m_last_thrust > 0
    · simp only [if_pos hc]
      exact ⟨_, rfl⟩
    · simp only [if_neg hc]
      exact ⟨_, rfl⟩

/-- The phase after a tick is the phase before it or one of the five listed successors. -/
theorem iteration_phase (d : Library P) (fuel : ℕ) (s : Controller P) (e : TickInput)
    (o : Outcome P) (ho : iteration d fuel s e = some o) :
    o.ctrl.m_state = s.m_state ∨
      (s.m_state = State.TakingOff ∧ o.ctrl.m_state = State.Automatic) ∨
      (s.m_state = State.Automatic ∧ o.ctrl.m_state = State.SafetyLanding) ∨
      (s.m_state = State.Landing ∧ o.ctrl.m_state = State.Idle) ∨
      (s.m_state = State.Landing ∧ o.ctrl.m_state = State.SafetyLanding) ∨
      (s.m_state = State.SafetyLanding ∧ o.ctrl.m_state = State.Idle) := by
  unfold iteration at ho
  cases hs : s.m_state with
  | Idle =>
    simp only [hs, Option.some.injEq] at ho
    subst ho
    exact Or.inl hs
  | Automatic =>
    simp only [hs, Option.some.injEq] at ho
    subst ho
    rcases automaticCase_state d s e.now e.transform [] with h | h
    · exact Or.inl (by rw [h, hs])
    · exact Or.inr (Or.inr (Or.inl ⟨rfl, h⟩))
  | TakingOff =>
    simp only [hs] at ho
    cases ht : e.transform with
    | none =>
      simp only [ht, Option.some.injEq] at ho
      subst ho
      exact Or.inl hs
    | some tf =>
      simp only [ht] at ho
      by_cases hz : tf.z > s.m_startZ + 5 / 100
      · simp only [if_pos hz, Option.some.injEq] at ho
        subst ho
        exact Or.inr (Or.inl ⟨rfl, rfl⟩)
      · simp only [if_neg hz, Option.some.injEq] at ho
        subst ho
        exact Or.inl rfl
  | Landing =>
    simp only [hs] at ho
    cases ht : e.transform with
    | none =>
      simp only [ht, Option.some.injEq] at ho
      subst ho
      exact Or.inl rfl
    | some tf =>
      simp only [ht] at ho
      by_cases hz : tf.z ≤ 35 / 100
      · simp only [if_pos hz] at ho
        cases hramp : rampLoop e.slept e.now fuel 0 e.now s.m_last_thrust [] with
        | none => simp [hramp] at ho
        | some r =>
          obtain ⟨t, last, out⟩ := r
          simp only [hramp, Option.some.injEq] at ho
          subst ho
          rcases automaticCase_state d
            { s with m_target_height := 5 / 100, m_last_thrust := last, m_state := State.Idle }
            t (some tf) (out ++ [zeroTwist]) with h | h
          · exact Or.inr (Or.inr (Or.inr (Or.inl ⟨rfl, h⟩)))
          · exact Or.inr (Or.inr (Or.inr (Or.inr (Or.inl ⟨rfl, h⟩))))
      · simp only [if_neg hz, Option.some.injEq] at ho
        subst ho
        rcases automaticCase_state d
          { s with m_target_height := 5 / 100, m_state := State.Landing } e.now (some tf)
          [] with h | h
        · exact Or.inl h
        · exact Or.inr (Or.inr (Or.inr (Or.inr (Or.inl ⟨rfl, h⟩))))
  | SafetyLanding =>
    simp only [hs] at ho
    by_cases hc : e.now - s.m_safety_start_time < 3 ∧ s.m_last_thrust > 0
    · simp only [if_pos hc, Option.some.injEq] at ho
      subst ho
      exact Or.inl rfl
    · simp only [if_neg hc, Option.some.injEq] at ho
      subst ho
      exact Or.inr (Or.inr (Or.inr (Or.inr (Or.inr ⟨rfl, rfl⟩))))

/-- C15 (tick transition relation). For every controller and tick input, the phase after one
tick is the phase before it or one of exactly these successors: `TakingOff → Automatic`,
`Automatic → SafetyLanding`, `Landing → Idle`, `Landing → SafetyLanding`,
`SafetyLanding → Idle`. Consequently no tick enters `TakingOff` or `Landing` (the takeoff
and land requests do), and `Idle` is a fixed point of the tick. The tick returns whenever
each ramp pass sleeps at least some `δ > 0` and the fuel covers the ramp. -/
theorem tick_transitions (d : Library P) (fuel : ℕ) (s : Controller P) (e : TickInput)
    (now : ℚ) (transform : Option Vector3) :
    (∀ o, iteration d fuel s e = some o →
      (o.ctrl.m_state = s.m_state ∨
        (s.m_state = State.TakingOff ∧ o.ctrl.m_state = State.Automatic) ∨
        (s.m_state = State.Automatic ∧ o.ctrl.m_state = State.SafetyLanding) ∨
        (s.m_state = State.Landing ∧ o.ctrl.m_state = State.Idle) ∨
        (s.m_state = State.Landing ∧ o.ctrl.m_state = State.SafetyLanding) ∨
        (s.m_state = State.SafetyLanding ∧ o.ctrl.m_state = State.Idle)) ∧
      (o.ctrl.m_state = State.TakingOff → s.m_state = State.TakingOff) ∧
      (o.ctrl.m_state = State.Landing → s.m_state = State.Landing) ∧
      (s.m_state = State.Idle → o.ctrl.m_state = State.Idle ∧ o.ctrl = s)) ∧
    (∀ δ : ℚ, 0 < δ → (∀ k, δ ≤ e.slept k) → ⌈3 / δ⌉₊ + 1 ≤ fuel →
      ∃ o, iteration d fuel s e = some o) ∧
    (takeoff d s now transform).ctrl.m_state = State.TakingOff ∧
    (land s).m_state = State.Landing := by
  refine ⟨fun o ho => ⟨iteration_phase d fuel s e o ho, fun h => ?_, fun h => ?_, fun h => ?_⟩,
    fun δ hδ hsl hf => iteration_returns d fuel s e δ hδ hsl hf, ?_, rfl⟩
  · rcases iteration_phase d fuel s e o ho with h1 | h1 | h1 | h1 | h1 | h1
    · rw [← h1]; exact h
    · exact absurd (h1.2.symm.trans h) (by decide)
    · exact absurd (h1.2.symm.trans h) (by decide)
    · exact absurd (h1.2.symm.trans h) (by decide)
    · exact absurd (h1.2.symm.trans h) (by decide)
    · exact absurd (h1.2.symm.trans h) (by decide)
  · rcases iteration_phase d fuel s e o ho with h1 | h1 | h1 | h1 | h1 | h1
    · rw [← h1]; exact h
    · exact absurd (h1.2.symm.trans h) (by decide)
    · exact absurd (h1.2.symm.trans h) (by decide)
    · exact h1.1
    · exact h1.1
    · exact absurd (h1.2.symm.trans h) (by decide)
  · rw [iteration_idle d fuel s e h, Option.some.injEq] at ho
    subst ho
    exact ⟨h, rfl⟩
  · cases transform <;> rfl

/-- Witness for C15: the freshly constructed controller is `Idle` and stays as it is. -/
theorem tick_transitions_witness :
    freshController.m_state = State.Idle ∧
      iteration specLibrary 0 freshController (tickAt 1 (1 / 50) 0) =
        some ⟨freshController, [zeroTwist], false⟩ ∧
      (⟨freshController, [zeroTwist], false⟩ : Outcome PID).ctrl.m_state = State.Idle ∧
      (⟨freshController, [zeroTwist], false⟩ : Outcome PID).ctrl = freshController :=
  ⟨rfl, iteration_idle specLibrary 0 freshController (tickAt 1 (1 / 50) 0) rfl,
    ((tick_transitions specLibrary 0 freshController (tickAt 1 (1 / 50) 0) 0 none).1
      ⟨freshController, [zeroTwist], false⟩
      (iteration_idle specLibrary 0 freshController (tickAt 1 (1 / 50) 0) rfl)).2.2.2 rfl⟩

/-! ## The target height -/

/-- The three ways the body of `case Automatic` ends: at the watchdog, at the transform
lookup, or after the control law, whose z PID is called with `m_target_height` as it stands
in `Landing` and with 0.7 in every other phase. -/
theorem automaticCase_cases (d : Library P) (s : Controller P) (now : ℚ)
    (transform : Option Vector3) (out : List Twist) :
    (automaticCase d s now transform out).ctrl.m_state = State.SafetyLanding ∨
      (automaticCase d s now transform out).threw = true ∨
      ((automaticCase d s now transform out).ctrl.m_state = s.m_state ∧
        (automaticCase d s now transform out).ctrl.m_pidZ =
          (d.pidUpdate s.m_pidZ now
            (if s.m_state = State.Landing then s.m_target_height else 7 / 10)
            s.m_goal.position.z).2 ∧
        (automaticCase d s now transform out).ctrl.m_last_thrust =
          39000 + (d.pidUpdate s.m_pidZ now
            (if s.m_state = State.Landing then s.m_target_height else 7 / 10)
            s.m_goal.position.z).1 ∧
        (automaticCase d s now transform out).ctrl.m_target_height =
          (if s.m_state = State.Landing then s.m_target_height else 7 / 10)) := by
  unfold automaticCase
  by_cases hw : now - s.m_last_marker > 1
  · exact Or.inl (by simp [hw])
  · cases transform with
    | none => exact Or.inr (Or.inl (by simp [hw]))
    | some tf =>
      refine Or.inr (Or.inr ?_)
      rw [if_neg hw]
      by_cases hl : s.m_state = State.Landing
      · simp [hl]
      · simp [hl]

/-- Outside `Landing`, the body of `case Automatic` does not read `m_target_height`. -/
theorem automaticCase_exceptTarget (d : Library P) (s : Controller P) (h0 now : ℚ)
    (transform : Option Vector3) (out : List Twist) (hl : s.m_state ≠ State.Landing) :
    (automaticCase d { s with m_target_height := h0 } now transform out).exceptTarget =
      (automaticCase d s now transform out).exceptTarget := by
  unfold automaticCase Outcome.exceptTarget
  by_cases hw : now - s.m_last_marker > 1
  · simp [hw]
  · cases transform with
    | none => simp [hw]
    | some tf => simp [hw, hl]

/-- A tick in `Automatic` is the body of `case Automatic`. -/
theorem iteration_automatic (d : Library P) (fuel : ℕ) (s : Controller P) (e : TickInput)
    (hs : s.m_state = State.Automatic) :
    iteration d fuel s e = some (automaticCase d s e.now e.transform []) := by
  simp only [iteration, hs]

/-- The result of a tick, apart from the value left in `m_target_height`, does not depend on
the value that member held before the tick. -/
theorem iteration_exceptTarget (d : Library P) (fuel : ℕ) (s : Controller P) (e : TickInput)
    (h0 : ℚ) :
    (iteration d fuel { s with m_target_height := h0 } e).map Outcome.exceptTarget =
      (iteration d fuel s e).map Outcome.exceptTarget := by
  have hph : s.m_state = State.Idle ∨ s.m_state = State.Automatic ∨
      s.m_state = State.TakingOff ∨ s.m_state = State.Landing ∨
      s.m_state = State.SafetyLanding := by
    cases s.m_state <;> simp
  rcases hph with hs | hs | hs | hs | hs
  · simp [iteration, hs, Outcome.exceptTarget]
  · rw [iteration_automatic d fuel s e hs,
      iteration_automatic d fuel { s with m_target_height := h0 } e hs, Option.map_some',
      Option.map_some',
      automaticCase_exceptTarget d s h0 e.now e.transform [] (by rw [hs]; decide)]
  · cases ht : e.transform with
    | none => simp [iteration, hs, ht, Outcome.exceptTarget]
    | some tf =>
      by_cases hz : tf.z > s.m_startZ + 5 / 100
      · simp [iteration, hs, ht, hz, Outcome.exceptTarget, pidReset]
      · simp [iteration, hs, ht, hz, Outcome.exceptTarget]
  · simp only [iteration, hs]
  · by_cases hc : e.now - s.m_safety_start_time < 3 ∧ s.m_last_thrust > 0
    · simp [iteration, hs, hc, Outcome.exceptTarget]
    · simp only [iteration, hs, hc, if_false, Option.map_some', Outcome.exceptTarget]

/-- C16 (target height is defined when used). The result of a tick (commands, exception,
every member other than `m_target_height`) is the same whatever value `m_target_height`
held before the tick, the uninitialised value of a new controller included. In every tick
that reaches the z PID update (it starts in `Automatic` or `Landing`, raises nothing and
does not end at the watchdog), the target height passed to that update is 0.05 when the
phase at that point is `Landing` and 0.7 otherwise; the phase is not written after that
point, so it is the phase in which the tick ends, and the target height passed is also the
value left in `m_target_height`. -/
theorem target_height_defined (d : Library P) (fuel : ℕ) (s : Controller P) (e : TickInput)
    (h0 : ℚ) :
    (iteration d fuel { s with m_target_height := h0 } e).map Outcome.exceptTarget =
        (iteration d fuel s e).map Outcome.exceptTarget ∧
      (∀ o, iteration d fuel s e = some o →
        s.m_state = State.Automatic ∨ s.m_state = State.Landing →
        o.threw = false → o.ctrl.m_state ≠ State.SafetyLanding →
        ∃ t,
          o.ctrl.m_pidZ =
            (d.pidUpdate s.m_pidZ t
              (if o.ctrl.m_state = State.Landing then 5 / 100 else 7 / 10)
              s.m_goal.position.z).2 ∧
          o.ctrl.m_last_thrust =
            39000 + (d.pidUpdate s.m_pidZ t
              (if o.ctrl.m_state = State.Landing then 5 / 100 else 7 / 10)
              s.m_goal.position.z).1 ∧
          o.ctrl.m_target_height =
            (if o.ctrl.m_state = State.Landing then 5 / 100 else 7 / 10)) := by
  refine ⟨iteration_exceptTarget d fuel s e h0, fun o ho hph hthrew hnot => ?_⟩
  unfold iteration at ho
  rcases hph with hs | hs
  · simp only [hs, Option.some.injEq] at ho
    subst ho
    rcases automaticCase_cases d s e.now e.transform [] with h | h | ⟨h1, h2, h3, h4⟩
    · exact absurd h hnot
    · rw [h] at hthrew
      exact absurd hthrew (by decide)
    · have hl : ¬ (s.m_state = State.Landing) := by rw [hs]; decide
      have hl2 : ¬ ((automaticCase d s e.now e.transform []).ctrl.m_state = State.Landing) := by
        rw [h1]; exact hl
      rw [if_neg hl] at h2 h3 h4
      exact ⟨e.now, by rw [if_neg hl2]; exact h2, by rw [if_neg hl2]; exact h3,
        by rw [if_neg hl2]; exact h4⟩
  · simp only [hs] at ho
    cases ht : e.transform with
    | none =>
      simp only [ht, Option.some.injEq] at ho
      subst ho
      simp at hthrew
    | some tf =>
      simp only [ht] at ho
      by_cases hz : tf.z ≤ 35 / 100
      · simp only [if_pos hz] at ho
        cases hramp : rampLoop e.slept e.now fuel 0 e.now s.m_last_thrust [] with
        | none => simp [hramp] at ho
        | some r =>
          obtain ⟨t, last, out⟩ := r
          simp only [hramp, Option.some.injEq] at ho
          subst ho
          rcases automaticCase_cases d
            { s with m_target_height := 5 / 100, m_last_thrust := last, m_state := State.Idle }
            t (some tf) (out ++ [zeroTwist]) with h | h | ⟨h1, h2, h3, h4⟩
          · exact absurd h hnot
          · rw [h] at hthrew
            exact absurd hthrew (by decide)
          · have hl : ¬ (State.Idle = State.Landing) := by decide
            simp only [if_neg hl] at h2 h3 h4
            have hl2 : ¬ ((automaticCase d
                { s with m_target_height := 5 / 100, m_last_thrust := last,
                         m_state := State.Idle }
                t (some tf) (out ++ [zeroTwist])).ctrl.m_state = State.Landing) := by
              rw [h1]; exact hl
            exact ⟨t, by rw [if_neg hl2]; exact h2, by rw [if_neg hl2]; exact h3,
              by rw [if_neg hl2]; exact h4⟩
      · simp only [if_neg hz, Option.some.injEq] at ho
        subst ho
        rcases automaticCase_cases d
          { s with m_target_height := 5 / 100, m_state := State.Landing }
          e.now (some tf) [] with h | h | ⟨h1, h2, h3, h4⟩
        · exact absurd h hnot
        · rw [h] at hthrew
          exact absurd hthrew (by decide)
        · simp only [if_true] at h2 h3 h4
          have hl2 : (automaticCase d
              { s with m_target_height := 5 / 100, m_state := State.Landing }
              e.now (some tf) []).ctrl.m_state = State.Landing := h1
          exact ⟨e.now, by rw [if_pos hl2]; exact h2, by rw [if_pos hl2]; exact h3,
            by rw [if_pos hl2]; exact h4⟩

/-- Witness for C16: a landing controller whose goal was refreshed at clock 10, ticked at
clock 10 at altitude 0.5, reaches the z PID update with target height 0.05. -/
theorem target_height_defined_witness :
    ∃ o, iteration specLibrary 0 (goalChanged (controllerIn State.Landing 50000) originPose 10)
        (tickAt 10 (1 / 50) (1 / 2)) = some o ∧
      o.threw = false ∧ o.ctrl.m_state = State.Landing ∧ o.ctrl.m_target_height = 5 / 100 := by
  have ho := landing_tick_eq specLibrary 0
    (goalChanged (controllerIn State.Landing 50000) originPose 10) (tickAt 10 (1 / 50) (1 / 2))
    ⟨0, 0, 1 / 2⟩ rfl rfl (by norm_num) (by norm_num [tickAt, goalChanged])
  obtain ⟨t, _, _, h3⟩ := (target_height_defined specLibrary 0
    (goalChanged (controllerIn State.Landing 50000) originPose 10) (tickAt 10 (1 / 50) (1 / 2))
    0).2 _ ho (Or.inr rfl) rfl (by decide)
  exact ⟨_, ho, rfl, rfl, by rw [h3]; rfl⟩

end Crazyflie
